import Mathlib

/-!
# Verification of the Hurry routing and schedule engine

Shallow embedding of the algorithmic core of the Hurry repository
(`backend/routes_router.py`, `backend/utils/schedule_calculator.py`,
`backend/graph/unique_edges_graph.py`) together with proofs settling the
frozen specification claims.

Conventions of the embedding:
* Python `float` arithmetic is modelled with `ℚ` (all constants appearing in
  the code are decimal literals, and no claim depends on binary rounding).
* `datetime` values are modelled as rational minutes since an arbitrary
  midnight; `datetime.date()` becomes `day_start`, `datetime.time()` becomes
  `time_of_day`, and `timedelta(minutes=m)` is addition of `m`.
* Python dictionaries keyed by station identifiers are modelled as total
  functions `String → Option _` (with `none` playing the role of a missing
  key / `float infinity` sentinel), and iteration-ordered dictionaries
  (frequency tables, adjacency) as association lists.
* `while` loops are modelled by structural recursion on an explicit fuel
  argument; fuel bounds are chosen so that the loops of the source are
  proved to never exhaust it (or, for the departure scan, the fuel mirrors
  the explicit `departure_number > 1000` cap of the source).
-/

namespace Hurry

/-! ### Kernel-reducible rational arithmetic

The standard `Rat.add`, `Rat.sub`, `Rat.mul`, `Rat.inv` are `@[irreducible]`,
so a definition using them cannot be evaluated by `decide` at the concrete
inputs of the witnesses below.  The embedding therefore computes with the
following wrappers, each proved equal to the standard operation (see the
`qadd_eq` family of lemmas), so that every statement and proof can move
freely between the two forms. -/

/-- Kernel-reducible `a + b` on `ℚ`. -/
def qadd (a b : ℚ) : ℚ := mkRat (a.num * b.den + b.num * a.den) (a.den * b.den)

/-- Kernel-reducible `a - b` on `ℚ`. -/
def qsub (a b : ℚ) : ℚ := mkRat (a.num * b.den - b.num * a.den) (a.den * b.den)

/-- Kernel-reducible `a * b` on `ℚ`. -/
def qmul (a b : ℚ) : ℚ := mkRat (a.num * b.num) (a.den * b.den)

/-- Kernel-reducible `a / b` on `ℚ`. -/
def qdiv (a b : ℚ) : ℚ := Rat.divInt (a.num * b.den) (a.den * b.num)

/-- Kernel-reducible `⌊a⌋` on `ℚ`. -/
def qfloor (a : ℚ) : ℤ := a.num / a.den

/-- Kernel-reducible `-a` on `ℚ`. -/
def qneg (a : ℚ) : ℚ := mkRat (-a.num) a.den

/-- Kernel-reducible `min a b` on `ℚ`. -/
def qmin (a b : ℚ) : ℚ := if a ≤ b then a else b

/-- Kernel-reducible `max a b` on `ℚ`. -/
def qmax (a b : ℚ) : ℚ := if a ≤ b then b else a

/-- Kernel-reducible absolute value on `ℚ`. -/
def qabs (a : ℚ) : ℚ := qmax a (qneg a)

/-- Kernel-reducible `round a` on `ℚ` (round half up, as `round` does). -/
def qround (a : ℚ) : ℤ := qfloor (qadd a (mkRat 1 2))

/-- Strip surrounding whitespace from a character list. -/
def trim_chars (cs : List Char) : List Char :=
  ((cs.dropWhile (·.isWhitespace)).reverse.dropWhile (·.isWhitespace)).reverse

/-- Python `int(s)`: optional surrounding whitespace, an optional sign and a
nonempty run of decimal digits.  `none` models the `ValueError` raised on any
other input. -/
def py_int (s : String) : Option Int :=
  let t := trim_chars s.toList
  let core : Bool × List Char :=
    match t with
    | '-' :: rest => (true, rest)
    | '+' :: rest => (false, rest)
    | _ => (false, t)
  if core.2.length > 0 ∧ core.2.all (·.isDigit) then
    let n : Nat := core.2.foldl (fun acc c => 10 * acc + (c.toNat - '0'.toNat)) 0
    some (if core.1 then -(n : Int) else (n : Int))
  else none

/-- Python `s.split(sep)` for a one-character separator (the only shape the
calculator uses: `":"` and `"-"`). -/
def split_char (c : Char) : List Char → List Char → List (List Char)
  | [], acc => [acc.reverse]
  | x :: xs, acc =>
    if x = c then acc.reverse :: split_char c xs []
    else split_char c xs (x :: acc)

/-- A `datetime.time` value restricted to the fields the calculator uses. -/
structure PyTime where
  hour : Nat
  minute : Nat
deriving Repr, DecidableEq

/-- The guarded `time(hours, minutes)` constructor: `none` models the
`ValueError` raised on out-of-range fields. -/
def mk_py_time (hours minutes : Int) : Option PyTime :=
  if 0 ≤ hours ∧ hours ≤ 23 ∧ 0 ≤ minutes ∧ minutes ≤ 59 then
    some ⟨hours.toNat, minutes.toNat⟩
  else none

/-- Minutes after midnight of a `PyTime`. -/
def PyTime.toMin (t : PyTime) : Nat := 60 * t.hour + t.minute

/-- The `HH:MM` branch of `MetroScheduleCalculator._parse_time` after the two
fields have been run through `int`: mirrors
`hours, minutes = map(int, time_str.split(":"))` (a list of any other shape
raises `ValueError`, caught by the surrounding handler), the single
`if hours >= 24: hours -= 24` adjustment, and the guarded `time` constructor
with the `except` fallback `time(0, 0)`. -/
def parse_time_fields : List (Option Int) → PyTime
  | [some hours, some minutes] =>
    let hours := if hours ≥ 24 then hours - 24 else hours
    (mk_py_time hours minutes).getD ⟨0, 0⟩
  | _ => ⟨0, 0⟩

/-- `MetroScheduleCalculator._parse_time`. -/
def parse_time (time_str : String) : PyTime :=
  if time_str.toList.contains ':' then
    parse_time_fields ((split_char ':' time_str.toList []).map fun cs => py_int ⟨cs⟩)
  else
    match py_int time_str with
    | some h => (mk_py_time h 0).getD ⟨0, 0⟩
    | none => ⟨0, 0⟩

/-- `MetroScheduleCalculator._time_in_range`.  The checked time is the
(possibly fractional) time of day of a `datetime`; the bounds are parsed
table entries. -/
def time_in_range (check_time : ℚ) (start_time end_time : PyTime) : Bool :=
  if start_time.toMin ≤ end_time.toMin then
    decide ((start_time.toMin : ℚ) ≤ check_time ∧ check_time ≤ (end_time.toMin : ℚ))
  else
    decide ((start_time.toMin : ℚ) ≤ check_time ∨ check_time ≤ (end_time.toMin : ℚ))

/-- One frequency-table entry: the `"HH:MM-HH:MM"` key already split at its
single `-` (every key built by the source contains exactly one dash, so the
`start_str, end_str = time_range.split("-")` unpack always succeeds), plus
the headway in minutes. -/
abbrev FreqRange := (String × String) × Nat

/-- `self.frequencies`: per line, the insertion-ordered dict of ranges. -/
abbrev FreqTable := List (String × List FreqRange)

/-- Association-list model of a Python dict lookup. -/
def table_lookup (freqs : FreqTable) (line : String) : Option (List FreqRange) :=
  freqs.lookup line

/-- Midnight of the day containing the instant `t` (minutes). -/
def day_start (t : ℚ) : ℚ := qmul 1440 ((qfloor (qdiv t 1440) : ℤ) : ℚ)

/-- Time of day, in minutes, of the instant `t`. -/
def time_of_day (t : ℚ) : ℚ := qsub t (day_start t)

/-- The scan of `get_frequency_for_time`: first range containing the time. -/
def find_matching_freq : List FreqRange → ℚ → Option Nat
  | [], _ => none
  | ((s, e), f) :: rest, t =>
    if time_in_range t (parse_time s) (parse_time e) then some f
    else find_matching_freq rest t

/-- `MetroScheduleCalculator.get_frequency_for_time`. -/
def get_frequency_for_time (freqs : FreqTable) (line : String) (target_time : ℚ) :
    Option Nat :=
  match table_lookup freqs line with
  | none => none
  | some line_schedule => find_matching_freq line_schedule target_time

/-- The second range scan inside `get_next_departure`, which re-finds the
(first) matching range itself rather than just its headway. -/
def find_matching_range : List FreqRange → ℚ → Option FreqRange
  | [], _ => none
  | ((s, e), f) :: rest, t =>
    if time_in_range t (parse_time s) (parse_time e) then some ((s, e), f)
    else find_matching_range rest t

/-- The `next_services` candidate list built by `_find_next_service_time`:
for every range, the start today (when still ahead) and the start
tomorrow. -/
def next_services_list (line_schedule : List FreqRange) (current_time : ℚ) : List ℚ :=
  line_schedule.flatMap fun r =>
    let st : ℚ := ((parse_time r.1.1).toMin : ℚ)
    (if qadd (day_start current_time) st > current_time then
      [qadd (day_start current_time) st] else []) ++
      [qadd (qadd (day_start current_time) 1440) st]

/-- `MetroScheduleCalculator._find_next_service_time`: the minimum of the
candidates, `None` when there are none. -/
def find_next_service_time (freqs : FreqTable) (line : String) (current_time : ℚ) :
    Option ℚ :=
  match table_lookup freqs line with
  | none => none
  | some line_schedule =>
    match next_services_list line_schedule current_time with
    | [] => none
    | x :: xs => some (xs.foldl qmin x)

/-- The hard-coded `self.frequencies` table of `MetroScheduleCalculator`. -/
def default_frequencies : FreqTable :=
  [("1", [(("05:30", "07:30"), 4), (("07:30", "09:30"), 2), (("09:30", "16:30"), 3),
          (("16:30", "20:30"), 2), (("20:30", "00:39"), 4)]),
   ("2", [(("05:30", "07:30"), 5), (("07:30", "09:30"), 3), (("09:30", "16:30"), 4),
          (("16:30", "20:30"), 3), (("20:30", "00:42"), 6)]),
   ("3", [(("05:30", "07:30"), 5), (("07:30", "09:30"), 3), (("09:30", "16:30"), 5),
          (("16:30", "20:30"), 3), (("20:30", "00:44"), 5)]),
   ("3bis", [(("05:32", "07:30"), 6), (("07:30", "09:30"), 4), (("09:30", "20:30"), 5),
             (("20:30", "01:11"), 8)]),
   ("4", [(("05:30", "07:30"), 4), (("07:30", "20:30"), 3), (("20:30", "01:01"), 4)]),
   ("5", [(("05:30", "07:30"), 5), (("07:30", "09:30"), 2), (("09:30", "16:30"), 3),
          (("16:30", "20:30"), 2), (("20:30", "00:42"), 6)]),
   ("6", [(("05:30", "07:30"), 4), (("07:30", "09:30"), 3), (("09:30", "16:30"), 4),
          (("16:30", "20:30"), 3), (("20:30", "00:39"), 5)]),
   ("7", [(("05:28", "07:30"), 8), (("07:30", "09:30"), 4), (("09:30", "16:30"), 7),
          (("16:30", "20:30"), 5), (("20:30", "00:28"), 11)]),
   ("7bis", [(("05:31", "07:30"), 7), (("07:30", "09:30"), 5), (("09:30", "16:30"), 5),
             (("16:30", "20:30"), 6), (("20:30", "00:54"), 8)]),
   ("8", [(("05:30", "07:30"), 3), (("07:30", "09:30"), 2), (("09:30", "16:30"), 4),
          (("16:30", "20:30"), 3), (("20:30", "00:24"), 7)]),
   ("9", [(("05:30", "07:30"), 3), (("07:30", "09:30"), 2), (("09:30", "16:30"), 3),
          (("16:30", "20:30"), 2), (("20:30", "00:42"), 6)]),
   ("10", [(("05:35", "07:30"), 7), (("07:30", "09:30"), 5), (("09:30", "16:30"), 6),
           (("16:30", "20:30"), 6), (("20:30", "00:47"), 9)]),
   ("11", [(("05:30", "07:30"), 4), (("07:30", "09:30"), 2), (("09:30", "16:30"), 3),
           (("16:30", "20:30"), 2), (("20:30", "00:51"), 5)]),
   ("12", [(("05:30", "07:30"), 4), (("07:30", "09:30"), 3), (("09:30", "16:30"), 4),
           (("16:30", "20:30"), 3), (("20:30", "00:33"), 6)]),
   ("13", [(("05:30", "07:30"), 6), (("07:30", "09:30"), 4), (("09:30", "16:30"), 6),
           (("16:30", "20:30"), 4), (("20:30", "00:37"), 9)]),
   ("14", [(("05:30", "07:30"), 2), (("07:30", "09:30"), 2), (("09:30", "16:30"), 4),
           (("16:30", "20:30"), 2), (("20:30", "00:34"), 5)])]

/-! ## The transit graph (`UniqueEdgesMetroGraph`)

Only the read interface used by the path search and the schedule calculator
is embedded: `nodes`, the adjacency dictionary `stop_id -> {neighbor:
(route_id, cost)}`, and the routes cache backing `_get_route_short_name`
(`route_id -> route_short_name`). -/

structure MetroGraph where
  nodes : List String
  adjacency : List (String × List (String × String × ℚ))
  routes : List (String × String)
deriving Repr

/-- `UniqueEdgesMetroGraph.get_neighbors`: key list of the adjacency entry,
the empty list for an unknown station. -/
def get_neighbors (g : MetroGraph) (node_id : String) : List String :=
  ((g.adjacency.lookup node_id).getD []).map (·.1)

/-- The `(route_id, cost)` value of the adjacency entry for an edge. -/
def adj_entry (g : MetroGraph) (from_id to_id : String) : Option (String × ℚ) :=
  (g.adjacency.lookup from_id).bind fun nbrs => nbrs.lookup to_id

/-- `UniqueEdgesMetroGraph._get_route_short_name`: the sentinel `"transfer"`
route id becomes `"Correspondance"`, otherwise the routes cache is consulted,
with `"?"` for a route id missing from it. -/
def get_route_short_name (g : MetroGraph) (route_id : String) : String :=
  if route_id = "transfer" then "Correspondance"
  else
    match g.routes.lookup route_id with
    | some short_name => short_name
    | none => "?"

/-- `UniqueEdgesMetroGraph.get_line_between_stations`. -/
def get_line_between_stations (g : MetroGraph) (from_id to_id : String) : String :=
  match adj_entry g from_id to_id with
  | some (route_id, _) => get_route_short_name g route_id
  | none => "?"

/-! ## Terminus search and hop-count distance
(`MetroScheduleCalculator._get_line_terminus`,
`_calculate_distance_between_stations`,
`_calculate_travel_time_from_terminus`) -/

/-- `MetroScheduleCalculator._get_line_terminus`: collect (in iteration
order, without duplicates) every endpoint of an edge labelled with the line,
then keep the stations having exactly one same-line neighbor. -/
def get_line_terminus (g : MetroGraph) (line : String) : List String :=
  let line_stations : List String :=
    g.nodes.foldl
      (fun acc node =>
        (get_neighbors g node).foldl
          (fun acc2 neighbor =>
            if get_line_between_stations g node neighbor = line then
              let acc3 := if node ∈ acc2 then acc2 else acc2 ++ [node]
              if neighbor ∈ acc3 then acc3 else acc3 ++ [neighbor]
            else acc2)
          acc)
      []
  if line_stations = [] then []
  else
    line_stations.filter fun station =>
      ((get_neighbors g station).filter
        (fun neighbor => get_line_between_stations g station neighbor = line)).length = 1

/-- Code-point lexicographic order on character lists. -/
def chars_lt : List Char → List Char → Bool
  | [], [] => false
  | [], _ :: _ => true
  | _ :: _, [] => false
  | a :: as, b :: bs =>
    if a.toNat < b.toNat then true
    else if a.toNat = b.toNat then chars_lt as bs
    else false

/-- Python string comparison `a < b` (code-point lexicographic). -/
def str_lt (a b : String) : Bool := chars_lt a.toList b.toList

/-- Strict comparison against a possibly-infinite distance
(`new_distance < distances[neighbor]`, where `none` is `float infinity`). -/
def lt_inf (a : ℚ) (b : Option ℚ) : Bool :=
  match b with
  | none => true
  | some c => decide (a < c)

/-- Ascending comparison on `(distance, station)` pairs, mirroring the tuple
order maintained by `priority_queue.sort()` before each `pop(0)`. -/
def dist_pair_lt (a b : ℚ × String) : Bool :=
  decide (a.1 < b.1) || (decide (a.1 = b.1) && str_lt a.2 b.2)

/-- Pop the minimal `(distance, station)` pair (first occurrence among
equals), i.e. the element `pop(0)` returns from the sorted queue. -/
def pop_min_dist (q : List (ℚ × String)) : Option ((ℚ × String) × List (ℚ × String)) :=
  match q with
  | [] => none
  | x :: xs =>
    let m := xs.foldl (fun acc y => if dist_pair_lt y acc then y else acc) x
    some (m, q.erase m)

/-- One relaxation pass of the simplified Dijkstra in
`_calculate_distance_between_stations` over the neighbor list of the popped
station (unit edge weights). -/
def dist_relax (visited : List String) (current_distance : ℚ) :
    List String → List (ℚ × String) → (String → Option ℚ) →
    List (ℚ × String) × (String → Option ℚ)
  | [], q, dist => (q, dist)
  | neighbor :: rest, q, dist =>
    if neighbor ∈ visited then dist_relax visited current_distance rest q dist
    else
      let new_distance := qadd current_distance 1
      if lt_inf new_distance (dist neighbor) then
        dist_relax visited current_distance rest (q ++ [(new_distance, neighbor)])
          (fun x => if x = neighbor then some new_distance else dist x)
      else dist_relax visited current_distance rest q dist

/-- The `while priority_queue` loop of
`_calculate_distance_between_stations`; on fuel exhaustion (never reached by
the source loop) it returns the dictionary entry like the post-loop
`distances.get(station2, float infinity)`. -/
def dist_loop (g : MetroGraph) (station2 : String) :
    Nat → List (ℚ × String) → (String → Option ℚ) → List String → Option ℚ
  | 0, _, dist, _ => dist station2
  | fuel + 1, q, dist, visited =>
    match pop_min_dist q with
    | none => dist station2
    | some ((current_distance, current_station), rest) =>
      if current_station ∈ visited then
        dist_loop g station2 fuel rest dist visited
      else
        let visited := current_station :: visited
        if current_station = station2 then some current_distance
        else
          let step := dist_relax visited current_distance
            (get_neighbors g current_station) rest dist
          dist_loop g station2 fuel step.1 step.2 visited

/-- Fuel that provably exceeds the iteration count of the search loops:
one initial queue entry plus one queue insertion per (station, neighbor)
pair. -/
def degree_sum (g : MetroGraph) : Nat :=
  (g.nodes.map (fun v => (get_neighbors g v).length)).sum

/-- `MetroScheduleCalculator._calculate_distance_between_stations`:
`none` models the `float infinity` of an unreachable pair. -/
def calculate_distance_between_stations (g : MetroGraph) (station1 station2 : String) :
    Option ℚ :=
  if station1 = station2 then some 0
  else if station1 ∉ g.nodes ∨ station2 ∉ g.nodes then none
  else
    dist_loop g station2 (degree_sum g + 2) [(0, station1)]
      (fun n => if n = station1 then some 0 else none) []

/-- Distance with an optional target station, for the
`to_station=None` default of `_calculate_travel_time_from_terminus`
(`None` is never a station id, so the distance is infinite). -/
def calculate_distance_opt (g : MetroGraph) (station1 : String) :
    Option String → Option ℚ
  | some station2 => calculate_distance_between_stations g station1 station2
  | none => none

/-- Infinite-aware sum of two distances. -/
def add_inf : Option ℚ → Option ℚ → Option ℚ
  | some a, some b => some (qadd a b)
  | _, _ => none

/-- Infinite-aware strict comparison between two distances. -/
def lt_inf_inf : Option ℚ → Option ℚ → Bool
  | some a, some b => decide (a < b)
  | some _, none => true
  | none, _ => false

/-- `MetroScheduleCalculator._calculate_travel_time_from_terminus`: with
fewer than two termini, fall back to the fixed `5.0` minutes; otherwise pick
the terminus minimizing distance-to-start plus distance-to-destination and
convert its hop distance to minutes (`distance * 2`, clamped at `0`).
The second `none` branch mirrors the `return 5.0` fallthrough reached when
no terminus attains a finite total distance. -/
def calculate_travel_time_from_terminus (g : MetroGraph) (line from_station : String)
    (to_station : Option String) : ℚ :=
  let terminus_stations := get_line_terminus g line
  if terminus_stations.length < 2 then 5
  else
    let best : Option String × Option ℚ :=
      terminus_stations.foldl
        (fun acc terminus =>
          let distance_to_start := calculate_distance_between_stations g terminus from_station
          let distance_to_end := calculate_distance_opt g from_station to_station
          let total_distance := add_inf distance_to_start distance_to_end
          if lt_inf_inf total_distance acc.2 then (some terminus, total_distance) else acc)
        (none, none)
    match best.1 with
    | some best_terminus =>
      match calculate_distance_between_stations g best_terminus from_station with
      | some distance => qmax 0 (qmul distance 2)
      | none => 5
    | none => 5

/-! ## Next-departure computation (`MetroScheduleCalculator.get_next_departure`) -/

/-- The pseudo-line labels excluded from the terminus-based travel-time
computation in `get_next_departure`. -/
def departure_transfer_labels : List String :=
  ["Correspondance", "Correspondance à pied", "transfer", "?"]

/-- The `while True` departure enumeration of `get_next_departure`.  The
`n` argument is `departure_number`; the structural `fuel` (instantiated with
`1001`) dominates the explicit `departure_number > 1000` cap of the source,
and the fuel-exhausted branch returns the same fallback as the cap. -/
def next_departure_scan (freqs : FreqTable) (line : String) (current_time : ℚ)
    (first_departure : ℚ) (frequency : Nat) (travel : ℚ)
    (range_start end_time : PyTime) : Nat → Nat → Option ℚ
  | 0, _ => find_next_service_time freqs line current_time
  | fuel + 1, n =>
    let departure_from_terminus := qadd first_departure (qmul (n : ℚ) (frequency : ℚ))
    let arrival_at_station := qadd departure_from_terminus travel
    if arrival_at_station > current_time then
      if time_in_range (time_of_day departure_from_terminus) range_start end_time then
        some arrival_at_station
      else find_next_service_time freqs line current_time
    else
      if n + 1 > 1000 then find_next_service_time freqs line current_time
      else next_departure_scan freqs line current_time first_departure frequency travel
        range_start end_time fuel (n + 1)

/-- The `travel_time_from_terminus` computation of `get_next_departure`
(`0` unless a graph and a truthy `from_station` are supplied and the line is
a real line). -/
def departure_travel_time (line : String) (from_station to_station : Option String)
    (graph : Option MetroGraph) : ℚ :=
  match graph, from_station with
  | some g, some fs =>
    if fs ≠ "" ∧ line ∉ departure_transfer_labels then
      calculate_travel_time_from_terminus g line fs to_station
    else 0
  | _, _ => 0

/-- `MetroScheduleCalculator.get_next_departure`. -/
def get_next_departure (freqs : FreqTable) (line : String) (current_time : ℚ)
    (from_station to_station : Option String) (graph : Option MetroGraph) : Option ℚ :=
  match get_frequency_for_time freqs line (time_of_day current_time) with
  | none => find_next_service_time freqs line current_time
  | some frequency =>
    let travel_time_from_terminus : ℚ :=
      departure_travel_time line from_station to_station graph
    match find_matching_range ((table_lookup freqs line).getD [])
        (time_of_day current_time) with
    | none => find_next_service_time freqs line current_time
    | some ((start_str, end_str), _) =>
      let current_range_start := parse_time start_str
      let range_start_datetime :=
        if (current_range_start.toMin : ℚ) > time_of_day current_time then
          qsub (qadd (day_start current_time) (current_range_start.toMin : ℚ)) 1440
        else qadd (day_start current_time) (current_range_start.toMin : ℚ)
      next_departure_scan freqs line current_time range_start_datetime frequency
        travel_time_from_terminus current_range_start (parse_time end_str) 1001 0

/-! ## Segment grouping and the journey clock
(`MetroScheduleCalculator._group_segments_by_line`,
`calculate_journey_time_with_schedule`) -/

/-- One entry of the `route_info["path"]` list handed to the calculator
(as built by `create_detailed_route_info` /
`convert_corrected_segments_to_detailed_path`): stations, the per-hop
travel time in whole minutes, and `route_info.short_name`.  The callers
always populate `route_info.short_name`, so the `"line"` fallback key of
`_group_segments_by_line` is not represented. -/
structure PathSegment where
  from_station : String
  to_station : String
  travel_time : Nat
  short_name : String
deriving Repr, DecidableEq

/-- The label cleanup at the head of the grouping loop. -/
def cleaned_line (seg : PathSegment) : String :=
  if seg.short_name ∈ (["?", "transfer", "Correspondance"] : List String) then
    "Correspondance"
  else seg.short_name

/-- Fueled left-to-right non-overlapping substring replacement
(`str.replace`); the fuel is the length of the scanned list, which each step
strictly decreases. -/
def replace_go (pat rep : List Char) : Nat → List Char → List Char
  | 0, cs => cs
  | fuel + 1, cs =>
    match cs with
    | [] => []
    | c :: rest =>
      if pat ≠ [] ∧ pat.isPrefixOf cs then
        rep ++ replace_go pat rep fuel (cs.drop pat.length)
      else c :: replace_go pat rep fuel rest

/-- Python `s.replace(pat, rep)` for nonempty `pat`. -/
def replace_chars (pat rep cs : List Char) : List Char :=
  replace_go pat rep cs.length cs

/-- `line.replace("bis", "B").replace("Bis", "B")`. -/
def clean_line_name (line : String) : String :=
  ⟨replace_chars ['B', 'i', 's'] ['B'] (replace_chars ['b', 'i', 's'] ['B'] line.toList)⟩

/-- The regex `^(\d+[AB]?)`: the leading digit run, extended by a single
following `A` or `B`; `none` when the string does not start with a digit. -/
def leading_line_token (s : String) : Option String :=
  match s.toList with
  | [] => none
  | c :: _ =>
    if c.isDigit then
      let digits := s.toList.takeWhile (·.isDigit)
      let rest := s.toList.dropWhile (·.isDigit)
      match rest with
      | d :: _ => if d = 'A' ∨ d = 'B' then some ⟨digits ++ [d]⟩ else some ⟨digits⟩
      | [] => some ⟨digits⟩
    else none

/-- `are_same_logical_line` (the copy inside `_group_segments_by_line`). -/
def are_same_logical_line (line1 line2 : String) : Bool :=
  if line1 = line2 then true
  else if line1 ≠ "" ∧ line2 ≠ "" then
    match leading_line_token (clean_line_name line1),
          leading_line_token (clean_line_name line2) with
    | some t1, some t2 => t1 = t2
    | _, _ => false
  else false

/-- One group of consecutive same-logical-line hops. -/
structure SegmentGroup where
  line : String
  from_station : String
  to_station : String
  total_travel_time : Nat
  stops : Nat
  segments : List PathSegment
deriving Repr, DecidableEq

/-- The grouping fold of `_group_segments_by_line`. -/
def group_go : List PathSegment → Option SegmentGroup → List SegmentGroup →
    List SegmentGroup
  | [], none, grouped => grouped
  | [], some current_group, grouped => grouped ++ [current_group]
  | seg :: rest, current, grouped =>
    let line := cleaned_line seg
    match current with
    | some current_group =>
      if are_same_logical_line current_group.line line ∧ line ≠ "Correspondance" then
        group_go rest
          (some { current_group with
                  to_station := seg.to_station,
                  total_travel_time := current_group.total_travel_time + seg.travel_time,
                  stops := current_group.stops + 1,
                  segments := current_group.segments ++ [seg] })
          grouped
      else
        group_go rest
          (some ⟨line, seg.from_station, seg.to_station, seg.travel_time, 1, [seg]⟩)
          (grouped ++ [current_group])
    | none =>
      group_go rest
        (some ⟨line, seg.from_station, seg.to_station, seg.travel_time, 1, [seg]⟩)
        grouped

/-- `MetroScheduleCalculator._group_segments_by_line`. -/
def group_segments_by_line (path_segments : List PathSegment) : List SegmentGroup :=
  group_go path_segments none []

/-- The pseudo-line labels treated as walking transfers by
`calculate_journey_time_with_schedule`. -/
def journey_transfer_labels : List String :=
  ["Correspondance", "Correspondance à pied", "transfer", "?", "Transfer"]

/-- `round(x, 1)` on minutes.  (Python rounds floats half-to-even; the
difference from `round` only concerns exact `.x5` boundary values, which no
settled statement depends on.) -/
def round1 (q : ℚ) : ℚ := mkRat (qround (qmul 10 q)) 10

/-- One scheduled segment of the returned itinerary.  Departure and arrival
instants are kept as rational minutes; the source formats them with
`strftime("%H:%M")` at this point, which only forgets the date. -/
structure ScheduledSegment where
  is_transfer : Bool
  line : String
  departure_time : ℚ
  arrival_time : ℚ
  waiting_time : ℚ
  travel_time : Nat
  from_station : String
  to_station : String
  stops : Nat
deriving Repr, DecidableEq

instance : Inhabited ScheduledSegment :=
  ⟨⟨false, "", 0, 0, 0, 0, "", "", 0⟩⟩

/-- The non-error result of `calculate_journey_time_with_schedule`. -/
structure JourneyOk where
  departure_time : ℚ
  arrival_time : ℚ
  total_travel_time : ℚ
  total_waiting_time : ℚ
  segments : List ScheduledSegment
deriving Repr, DecidableEq

/-- Result of `calculate_journey_time_with_schedule`: either the structured
`{"error": ...}` dict or the scheduled itinerary. -/
inductive JourneyResult
  | error (msg : String)
  | ok (result : JourneyOk)
deriving Repr, DecidableEq

/-- Whether a journey result is the error dict. -/
def JourneyResult.isError : JourneyResult → Bool
  | .error _ => true
  | .ok _ => false

/-- The per-group loop of `calculate_journey_time_with_schedule`, carrying
the running clock, the accumulated (unrounded) waiting total and the emitted
segments. -/
def journey_go (freqs : FreqTable) (graph : Option MetroGraph) (departure_time : ℚ) :
    List SegmentGroup → ℚ → ℚ → List ScheduledSegment → JourneyResult
  | [], current_time, total_waiting_time, segments =>
    .ok ⟨departure_time, current_time, round1 (qsub current_time departure_time),
         round1 total_waiting_time, segments⟩
  | segment_group :: rest, current_time, total_waiting_time, segments =>
    let line := segment_group.line
    if line ∈ journey_transfer_labels then
      let walk_time := segment_group.total_travel_time
      journey_go freqs graph departure_time rest (qadd current_time (walk_time : ℚ))
        total_waiting_time
        (segments ++ [⟨true, "Correspondance à pied", current_time,
          qadd current_time (walk_time : ℚ), 0, walk_time,
          segment_group.from_station, segment_group.to_station, segment_group.stops⟩])
    else
      match get_next_departure freqs line current_time
        (some segment_group.from_station) (some segment_group.to_station) graph with
      | none => .error ("La ligne " ++ line ++ " ne circule pas à l\u0027heure demandée")
      | some next_departure =>
        let waiting_time := qsub next_departure current_time
        let segment_travel_time := segment_group.total_travel_time
        let segment_end_time := qadd next_departure (segment_travel_time : ℚ)
        journey_go freqs graph departure_time rest segment_end_time
          (qadd total_waiting_time waiting_time)
          (segments ++ [⟨false, line, next_departure, segment_end_time,
            round1 waiting_time, segment_travel_time,
            segment_group.from_station, segment_group.to_station, segment_group.stops⟩])

/-- `MetroScheduleCalculator.calculate_journey_time_with_schedule`; the
`route_info` dict is passed as its only consulted field, the `"path"`
segment list (the guard for a missing dict or key is not representable
here). -/
def calculate_journey_time_with_schedule (freqs : FreqTable)
    (route_path : List PathSegment) (departure_time : ℚ)
    (graph : Option MetroGraph) : JourneyResult :=
  journey_go freqs graph departure_time (group_segments_by_line route_path)
    departure_time 0 []

/-! ## Path search (`PathFinder.a_star_pathfinding`,
`PathFinder.dijkstra_pathfinding`, `PathFinder.find_optimal_path`,
`PathFinder._find_path_with_modified_costs`) -/

/-- The shared line-change-penalty condition of the three searches:
`prefer_line_continuity and current_line is not None and neighbor_line !=
current_line and neighbor_line != "transfer"`. -/
def line_change_penalized (prefer_line_continuity : Bool)
    (current_line : Option String) (neighbor_line : String) : Bool :=
  prefer_line_continuity && current_line.isSome &&
    (some neighbor_line != current_line) && (neighbor_line != "transfer")

/-- The edge cost of `a_star_pathfinding`: base `1.0` plus the `0.2`
penalty. -/
def a_star_edge_cost (prefer_line_continuity : Bool) (current_line : Option String)
    (neighbor_line : String) : ℚ :=
  if line_change_penalized prefer_line_continuity current_line neighbor_line then
    qadd 1 (mkRat 2 10)
  else 1

/-- The edge cost of `dijkstra_pathfinding`: base `1.0` plus the `0.15`
penalty. -/
def dijkstra_edge_cost (prefer_line_continuity : Bool) (current_line : Option String)
    (neighbor_line : String) : ℚ :=
  if line_change_penalized prefer_line_continuity current_line neighbor_line then
    qadd 1 (mkRat 15 100)
  else 1

/-- The edge cost of `_find_path_with_modified_costs`: base `1.0` plus the
caller-chosen `penalty_factor` (no `prefer_line_continuity` guard). -/
def modified_edge_cost (penalty_factor : ℚ) (current_line : Option String)
    (neighbor_line : String) : ℚ :=
  if current_line.isSome && (some neighbor_line != current_line) &&
      (neighbor_line != "transfer") then
    qadd 1 penalty_factor
  else 1

/-- A `(distance, station, previous_line)` entry of the Dijkstra priority
queue. -/
abbrev DEntry := ℚ × String × Option String

/-- Ascending heap order on Dijkstra entries.  `heapq` orders tuples
lexicographically; the `previous_line` component is only reached on a tie in
both preceding components, where the popped element is observationally
interchangeable, so entries are compared by `(distance, station)` with the
first minimal occurrence popped. -/
def d_entry_lt (a b : DEntry) : Bool :=
  decide (a.1 < b.1) || (decide (a.1 = b.1) && str_lt a.2.1 b.2.1)

/-- `heapq.heappop` on the Dijkstra queue. -/
def pop_min_d (q : List DEntry) : Option (DEntry × List DEntry) :=
  match q with
  | [] => none
  | x :: xs =>
    let m := xs.foldl (fun acc y => if d_entry_lt y acc then y else acc) x
    some (m, q.erase m)

/-- Mutable state of the Dijkstra loop. -/
structure DijkstraState where
  distances : String → Option ℚ
  predecessors : String → Option String
  previous_lines : String → Option String
  priority_queue : List DEntry
  visited : List String

/-- The neighbor-relaxation loop shared (textually identical up to the edge
cost) by `dijkstra_pathfinding` and `_find_path_with_modified_costs`.
`new_distance` is computed from the popped `current_distance` as in the
source. -/
def dijkstra_relax (g : MetroGraph) (edge_cost_of : Option String → String → ℚ)
    (current_station : String) (current_line : Option String)
    (current_distance : ℚ) : List String → DijkstraState → DijkstraState
  | [], st => st
  | neighbor :: rest, st =>
    if neighbor ∈ st.visited then
      dijkstra_relax g edge_cost_of current_station current_line current_distance rest st
    else
      let neighbor_line := get_line_between_stations g current_station neighbor
      let edge_cost := edge_cost_of current_line neighbor_line
      let new_distance := qadd current_distance edge_cost
      if lt_inf new_distance (st.distances neighbor) then
        dijkstra_relax g edge_cost_of current_station current_line current_distance rest
          { st with
            distances := fun x => if x = neighbor then some new_distance else st.distances x,
            predecessors := fun x => if x = neighbor then some current_station
                                     else st.predecessors x,
            previous_lines := fun x => if x = neighbor then some neighbor_line
                                       else st.previous_lines x,
            priority_queue := st.priority_queue ++ [(new_distance, neighbor, some neighbor_line)] }
      else
        dijkstra_relax g edge_cost_of current_station current_line current_distance rest st

/-- The `while current is not None` path reconstruction from the
`predecessors` dict (finitely truncated: predecessor chains built by the
loop are acyclic and shorter than the fuel used). -/
def dijkstra_reconstruct (predecessors : String → Option String) :
    Nat → Option String → List String → List String
  | 0, _, path => path.reverse
  | _ + 1, none, path => path.reverse
  | fuel + 1, some current, path =>
    dijkstra_reconstruct predecessors fuel (predecessors current) (path ++ [current])

/-- The `while priority_queue` loop shared by `dijkstra_pathfinding` and
`_find_path_with_modified_costs`.  `none` is fuel exhaustion (proved
unreachable from the initial state with fuel `degree_sum g + 2`),
`some none` the no-path exit, `some (some _)` the found path and its
recorded distance. -/
def dijkstra_loop (g : MetroGraph) (edge_cost_of : Option String → String → ℚ)
    (end_station : String) : Nat → DijkstraState → Option (Option (List String × ℚ))
  | 0, _ => none
  | fuel + 1, st =>
    match pop_min_d st.priority_queue with
    | none => some none
    | some ((current_distance, current_station, current_line), rest) =>
      if current_station ∈ st.visited then
        dijkstra_loop g edge_cost_of end_station fuel { st with priority_queue := rest }
      else
        let st' : DijkstraState :=
          { st with priority_queue := rest, visited := current_station :: st.visited }
        if current_station = end_station then
          some (some (dijkstra_reconstruct st'.predecessors (g.nodes.length + 1)
                        (some end_station) [],
                      (st'.distances end_station).getD 0))
        else
          dijkstra_loop g edge_cost_of end_station fuel
            (dijkstra_relax g edge_cost_of current_station current_line current_distance
              (get_neighbors g current_station) st')

/-- Initial Dijkstra state: `distances` is `infinity` everywhere except `0`
at the start, `predecessors` and `previous_lines` are all `None`, and the
queue holds `(0.0, start_station, None)`. -/
def dijkstra_init (start_station : String) : DijkstraState :=
  { distances := fun n => if n = start_station then some 0 else none,
    predecessors := fun _ => none,
    previous_lines := fun _ => none,
    priority_queue := [(0, start_station, none)],
    visited := [] }

/-- `PathFinder.dijkstra_pathfinding`. -/
def dijkstra_pathfinding (g : MetroGraph) (start_station end_station : String)
    (prefer_line_continuity : Bool) : Option (List String × ℚ) :=
  if start_station ∉ g.nodes ∨ end_station ∉ g.nodes then none
  else if start_station = end_station then some ([start_station], 0)
  else
    (dijkstra_loop g (dijkstra_edge_cost prefer_line_continuity) end_station
      (degree_sum g + 2) (dijkstra_init start_station)).getD none

/-- `PathFinder._find_path_with_modified_costs`. -/
def find_path_with_modified_costs (g : MetroGraph) (start_station end_station : String)
    (penalty_factor : ℚ) : Option (List String × ℚ) :=
  if start_station ∉ g.nodes ∨ end_station ∉ g.nodes then none
  else if start_station = end_station then some ([start_station], 0)
  else
    (dijkstra_loop g (modified_edge_cost penalty_factor) end_station
      (degree_sum g + 2) (dijkstra_init start_station)).getD none

/-- An `(f_score, g_score, station, previous_line)` entry of the A* open
set. -/
abbrev AEntry := ℚ × ℚ × String × Option String

/-- Ascending heap order on A* entries: lexicographic on
`(f_score, g_score, station)` (see `d_entry_lt` for the tie component). -/
def a_entry_lt (a b : AEntry) : Bool :=
  decide (a.1 < b.1) ||
    (decide (a.1 = b.1) &&
      (decide (a.2.1 < b.2.1) ||
        (decide (a.2.1 = b.2.1) && str_lt a.2.2.1 b.2.2.1)))

/-- `heapq.heappop` on the A* open set. -/
def pop_min_a (q : List AEntry) : Option (AEntry × List AEntry) :=
  match q with
  | [] => none
  | x :: xs =>
    let m := xs.foldl (fun acc y => if a_entry_lt y acc then y else acc) x
    some (m, q.erase m)

/-- Mutable state of the A* loop. -/
structure AStarState where
  g_score : String → Option ℚ
  f_score : String → Option ℚ
  came_from : String → Option String
  previous_lines : String → Option String
  open_set : List AEntry
  closed_set : List String

/-- The neighbor-relaxation loop of `a_star_pathfinding`.  The heuristic
`h current target` stands for `PathFinder._get_heuristic_cost` (whose
haversine value is transcendental and irrelevant to the settled claims;
it is `0.0` for stations without coordinates).  `tentative_g_score` reads
`g_score[current_station]` from the dict as in the source; the `getD 0`
default is dead because every popped station has a finite score. -/
def a_star_relax (g : MetroGraph) (h : String → String → ℚ) (end_station : String)
    (prefer_line_continuity : Bool) (current_station : String)
    (current_line : Option String) : List String → AStarState → AStarState
  | [], st => st
  | neighbor :: rest, st =>
    if neighbor ∈ st.closed_set then
      a_star_relax g h end_station prefer_line_continuity current_station current_line rest st
    else
      let neighbor_line := get_line_between_stations g current_station neighbor
      let edge_cost := a_star_edge_cost prefer_line_continuity current_line neighbor_line
      let tentative_g_score := qadd ((st.g_score current_station).getD 0) edge_cost
      if lt_inf tentative_g_score (st.g_score neighbor) then
        let f_new := qadd tentative_g_score (h neighbor end_station)
        a_star_relax g h end_station prefer_line_continuity current_station current_line rest
          { st with
            g_score := fun x => if x = neighbor then some tentative_g_score else st.g_score x,
            f_score := fun x => if x = neighbor then some f_new else st.f_score x,
            came_from := fun x => if x = neighbor then some current_station else st.came_from x,
            previous_lines := fun x => if x = neighbor then some neighbor_line
                                       else st.previous_lines x,
            open_set := st.open_set ++ [(f_new, tentative_g_score, neighbor, some neighbor_line)] }
      else
        a_star_relax g h end_station prefer_line_continuity current_station current_line rest st

/-- The `while current in came_from` backward walk of the A* path
reconstruction. -/
def a_star_walk (came_from : String → Option String) :
    Nat → String → List String → List String
  | 0, _, path => path
  | fuel + 1, current, path =>
    match came_from current with
    | some prev => a_star_walk came_from fuel prev (path ++ [current])
    | none => path

/-- A* path reconstruction: walk the `came_from` chain, append the start and
reverse. -/
def a_star_reconstruct (came_from : String → Option String) (fuel : Nat)
    (start_station current_station : String) : List String :=
  ((a_star_walk came_from fuel current_station []) ++ [start_station]).reverse

/-- The `while open_set` loop of `a_star_pathfinding`; result encoding as in
`dijkstra_loop`. -/
def a_star_loop (g : MetroGraph) (h : String → String → ℚ)
    (start_station end_station : String) (prefer_line_continuity : Bool) :
    Nat → AStarState → Option (Option (List String × ℚ))
  | 0, _ => none
  | fuel + 1, st =>
    match pop_min_a st.open_set with
    | none => some none
    | some ((_, _, current_station, current_line), rest) =>
      if current_station ∈ st.closed_set then
        a_star_loop g h start_station end_station prefer_line_continuity fuel
          { st with open_set := rest }
      else
        let st' : AStarState :=
          { st with open_set := rest, closed_set := current_station :: st.closed_set }
        if current_station = end_station then
          some (some (a_star_reconstruct st'.came_from (g.nodes.length + 1)
                        start_station current_station,
                      (st'.g_score end_station).getD 0))
        else
          a_star_loop g h start_station end_station prefer_line_continuity fuel
            (a_star_relax g h end_station prefer_line_continuity current_station
              current_line (get_neighbors g current_station) st')

/-- Initial A* state: `g_score` is `infinity` everywhere except `0` at the
start, `f_score` starts at the heuristic of the start, `came_from` is the
empty dict and the open set holds `(f_score[start], 0.0, start, None)`. -/
def a_star_init (h : String → String → ℚ) (start_station end_station : String) :
    AStarState :=
  { g_score := fun n => if n = start_station then some 0 else none,
    f_score := fun n => if n = start_station then some (h start_station end_station)
                        else none,
    came_from := fun _ => none,
    previous_lines := fun _ => none,
    open_set := [(h start_station end_station, 0, start_station, none)],
    closed_set := [] }

/-- `PathFinder.a_star_pathfinding`. -/
def a_star_pathfinding (g : MetroGraph) (h : String → String → ℚ)
    (start_station end_station : String) (prefer_line_continuity : Bool) :
    Option (List String × ℚ) :=
  if start_station ∉ g.nodes ∨ end_station ∉ g.nodes then none
  else if start_station = end_station then some ([start_station], 0)
  else
    (a_star_loop g h start_station end_station prefer_line_continuity
      (degree_sum g + 2) (a_star_init h start_station end_station)).getD none

/-- `PathFinder.find_optimal_path`: A* first, Dijkstra as fallback.  The
embedded searches are total, so the `except` arms of the source (which also
fall through to Dijkstra, then to `None`) have no counterpart. -/
def find_optimal_path (g : MetroGraph) (h : String → String → ℚ)
    (start_station end_station : String) (prefer_line_continuity : Bool) :
    Option (List String × ℚ) :=
  match a_star_pathfinding g h start_station end_station prefer_line_continuity with
  | some result => some result
  | none => dijkstra_pathfinding g start_station end_station prefer_line_continuity

/-! ## Alternative paths (`PathFinder.find_multiple_paths`,
`PathFinder._paths_are_equivalent`) -/

/-- `PathFinder._paths_are_equivalent`.  Python `set(...)` operations are
modelled with `Finset String`. -/
def paths_are_equivalent (path1 path2 : Option (List String × ℚ))
    (threshold : ℚ) : Bool :=
  match path1, path2 with
  | some p1, some p2 =>
    if qabs (qsub p1.2 p2.2) > threshold then false
    else if ((p1.1.length : ℤ) - (p2.1.length : ℤ)).natAbs > 2 then false
    else
      let set1 := p1.1.toFinset
      let set2 := p2.1.toFinset
      let common := (set1 ∩ set2).card
      let total := (set1 ∪ set2).card
      let similarity : ℚ := if total > 0 then mkRat (common : ℤ) total else 0
      decide (similarity > mkRat 7 10)
  | _, _ => false

/-- `paths.sort(key=lambda x: x["distance"])` (Python sorts are stable merge
sorts). -/
def sort_paths_by_distance (paths : List (List String × ℚ)) : List (List String × ℚ) :=
  paths.mergeSort (fun a b => decide (a.2 ≤ b.2))

/-- `PathFinder.find_multiple_paths`. -/
def find_multiple_paths (g : MetroGraph) (h : String → String → ℚ)
    (start_station end_station : String) (max_paths : Nat) :
    List (List String × ℚ) :=
  let optimal_path := find_optimal_path g h start_station end_station true
  let paths : List (List String × ℚ) :=
    match optimal_path with
    | some p => [p]
    | none => []
  let paths :=
    if paths.length < max_paths then
      match find_optimal_path g h start_station end_station false with
      | some alternative_path =>
        if paths_are_equivalent optimal_path (some alternative_path) (mkRat 1 10) then paths
        else paths ++ [alternative_path]
      | none => paths
    else paths
  let paths :=
    if paths.length < max_paths then
      match find_path_with_modified_costs g start_station end_station (mkRat 5 100) with
      | some relaxed_path =>
        if paths.any (fun p => paths_are_equivalent (some relaxed_path) (some p) (mkRat 1 10)) then
          paths
        else paths ++ [relaxed_path]
      | none => paths
    else paths
  (sort_paths_by_distance paths).take max_paths

/-! ## Route sanity filter (`PathFinder._is_route_logical`) -/

/-- One processed route segment as compared by `_is_route_logical` and
`deduplicate_routes`: the `(line, from, to, type)` projection, with `type`
defaulted to `"normal"`. -/
structure RouteSegment where
  line : String
  from_ : String
  to_ : String
  type_ : String
deriving Repr, DecidableEq

/-- The consecutive-identical-segment counter loop of `_is_route_logical`:
`false` is the `return False` triggered when the counter reaches 2. -/
def consecutive_scan : Nat → List RouteSegment → Bool
  | _, [] => true
  | _, [_] => true
  | count, s1 :: s2 :: rest =>
    if s1 = s2 then
      if count + 1 ≥ 2 then false else consecutive_scan (count + 1) (s2 :: rest)
    else consecutive_scan 0 (s2 :: rest)

/-- `PathFinder._is_route_logical` on the segment list of a processed
route. -/
def is_route_logical (segments : List RouteSegment) : Bool :=
  if segments = [] then false
  else if consecutive_scan 0 segments = false then false
  else if segments.length > 20 then false
  else true

/-- Specification-side reading of the first rejection condition: some three
consecutive segments are fully identical (more than 2 consecutive identical
segments). -/
def has_three_consecutive_identical : List RouteSegment → Bool
  | s1 :: s2 :: s3 :: rest =>
    (s1 = s2 && s2 = s3) || has_three_consecutive_identical (s2 :: s3 :: rest)
  | _ => false

/-! ## Concrete instances and auxiliary predicates used by the claim
statements -/

/-- A two-station graph holding one walking transfer (adjacency route id
`"transfer"`), as built by step 9 of `UniqueEdgesMetroGraph`. -/
def c1_graph : MetroGraph :=
  { nodes := ["A", "T"],
    adjacency := [("A", [("T", "transfer", 1)]), ("T", [("A", "transfer", 1)])],
    routes := [] }

/-- A one-station graph for the C5 witness. -/
def c5_graph : MetroGraph := ⟨["A"], [("A", [])], []⟩

/-- A rational that is a whole number of minutes. -/
def IsIntQ (q : ℚ) : Prop := ∃ n : ℤ, q = (n : ℚ)

/-- The frequency table and expected result of the C2 counterexample. -/
def c2_table : FreqTable := [("1", [(("05:30", "23:00"), 5)])]

/-- Expected itinerary of the C2 counterexample: requested departure 05:00
(minute 300), one metro segment on line `"1"` boarding at 05:30 after a
30-minute wait, arriving 05:32. -/
def c2_result : JourneyOk :=
  ⟨300, 332, 32, 30, [⟨false, "1", 330, 332, 30, 2, "S1", "S2", 1⟩]⟩

/-! ## Connectivity and search invariants -/

/-- One adjacency hop of the graph. -/
def stepRel (g : MetroGraph) (a b : String) : Prop := b ∈ get_neighbors g a

/-- Connectivity along adjacency hops: the specification-side notion of a
pair of stations being connected. -/
def Reachable (g : MetroGraph) : String → String → Prop :=
  Relation.ReflTransGen (stepRel g)

/-- Well-formedness of the graph as built by `UniqueEdgesMetroGraph`:
station ids are unique and every neighbor of a station is itself a
station. -/
def GraphWF (g : MetroGraph) : Prop :=
  g.nodes.Nodup ∧ ∀ v ∈ g.nodes, ∀ n ∈ get_neighbors g v, n ∈ g.nodes

/-- Total degree of the stations not yet visited. -/
def unvisited_deg (g : MetroGraph) (visited : List String) : Nat :=
  ((g.nodes.filter fun v => decide (v ∉ visited)).map
    fun v => (get_neighbors g v).length).sum

/-- Termination measure of the Dijkstra loop. -/
def dPhi (g : MetroGraph) (st : DijkstraState) : Nat :=
  st.priority_queue.length + unvisited_deg g st.visited

/-- Termination measure of the A* loop. -/
def aPhi (g : MetroGraph) (st : AStarState) : Nat :=
  st.open_set.length + unvisited_deg g st.closed_set

/-- Dijkstra loop invariant: every finite-distance station is queued or
visited. -/
def DInvK (st : DijkstraState) : Prop :=
  ∀ v, st.distances v ≠ none →
    (∃ en ∈ st.priority_queue, en.2.1 = v) ∨ v ∈ st.visited

/-- Dijkstra loop invariant: every neighbor of a visited station has a
finite distance. -/
def DInvL (g : MetroGraph) (st : DijkstraState) : Prop :=
  ∀ v ∈ st.visited, ∀ n ∈ get_neighbors g v, st.distances n ≠ none

/-- Dijkstra loop invariant: every visited station has a finite
distance. -/
def DInvN (st : DijkstraState) : Prop :=
  ∀ v ∈ st.visited, st.distances v ≠ none

/-- Dijkstra loop invariant: every queued station has a finite
distance. -/
def DInvQ (st : DijkstraState) : Prop :=
  ∀ en ∈ st.priority_queue, st.distances en.2.1 ≠ none

/-- A* loop invariant: every finite-`g_score` station is in the open set or
closed. -/
def AInvK (st : AStarState) : Prop :=
  ∀ v, st.g_score v ≠ none →
    (∃ en ∈ st.open_set, en.2.2.1 = v) ∨ v ∈ st.closed_set

/-- A* loop invariant: every neighbor of a closed station has a finite
`g_score`. -/
def AInvL (g : MetroGraph) (st : AStarState) : Prop :=
  ∀ v ∈ st.closed_set, ∀ n ∈ get_neighbors g v, st.g_score n ≠ none

/-- A* loop invariant: every closed station has a finite `g_score`. -/
def AInvN (st : AStarState) : Prop :=
  ∀ v ∈ st.closed_set, st.g_score v ≠ none

/-- A* loop invariant: every station in the open set has a finite
`g_score`. -/
def AInvQ (st : AStarState) : Prop :=
  ∀ en ∈ st.open_set, st.g_score en.2.2.1 ≠ none

/-- A four-station graph: `A - B` on line `"1"`, `B - C` on line `"2"`, and
an isolated station `"D"`. -/
def c4_graph : MetroGraph :=
  { nodes := ["A", "B", "C", "D"],
    adjacency := [("A", [("B", "r1", 1)]),
                  ("B", [("A", "r1", 1), ("C", "r2", 1)]),
                  ("C", [("B", "r2", 1)]),
                  ("D", [])],
    routes := [("r1", "1"), ("r2", "2")] }

/-! ## Bridging lemmas for the kernel-reducible arithmetic -/

theorem qadd_eq (a b : ℚ) : qadd a b = a + b := (Rat.add_def' a b).symm

theorem qsub_eq (a b : ℚ) : qsub a b = a - b := (Rat.sub_def' a b).symm

theorem qneg_eq (a : ℚ) : qneg a = -a := by
  rw [qneg, Rat.mkRat_eq_divInt, ← Rat.neg_def]

theorem qmul_eq (a b : ℚ) : qmul a b = a * b := by
  rw [qmul, Rat.mkRat_eq_divInt, Int.natCast_mul, ← Rat.divInt_mul_divInt',
    Rat.num_divInt_den, Rat.num_divInt_den]

theorem qdiv_eq (a b : ℚ) : qdiv a b = a / b := (Rat.div_def' a b).symm

theorem qfloor_eq (a : ℚ) : qfloor a = ⌊a⌋ := Rat.floor_def.symm

theorem qmin_eq (a b : ℚ) : qmin a b = min a b := (min_def a b).symm

theorem qmax_eq (a b : ℚ) : qmax a b = max a b := (max_def a b).symm

theorem qabs_eq (a : ℚ) : qabs a = |a| := by
  rw [qabs, qmax_eq, qneg_eq, ← abs_eq_max_neg]

theorem mkRat_q (n : ℤ) (d : ℕ) : (mkRat n d : ℚ) = (n : ℚ) / (d : ℚ) := by
  rw [Rat.mkRat_eq_divInt, Rat.divInt_eq_div]
  norm_num

theorem qround_eq (a : ℚ) : qround a = round a := by
  rw [qround, qfloor_eq, qadd_eq, round_eq, mkRat_q]
  norm_num

theorem round1_eq (q : ℚ) : round1 q = ((round (10 * q) : ℤ) : ℚ) / 10 := by
  rw [round1, qround_eq, qmul_eq, mkRat_q]
  norm_num

/-! ## Claim C9: totality and fallback behavior of `_parse_time` -/

theorem mk_py_time_getD_valid (h m : Int) :
    ((mk_py_time h m).getD ⟨0, 0⟩).hour < 24 ∧ ((mk_py_time h m).getD ⟨0, 0⟩).minute < 60 := by
  unfold mk_py_time
  split
  · next hc => simpa using And.intro (by omega) (by omega)
  · simp

theorem parse_time_fields_valid (l : List (Option Int)) :
    (parse_time_fields l).hour < 24 ∧ (parse_time_fields l).minute < 60 := by
  unfold parse_time_fields
  split
  · exact mk_py_time_getD_valid _ _
  · simp

/-- C9 (corrected).  `_parse_time` is total and always yields a valid time:
for colon-separated `HH:MM` input whose two fields parse as integers, an
hour in `[24, 48)` has 24 subtracted once before construction, an in-range
hour is used as is, and any fields that still fail validation (hour out of
range after the single subtraction, minutes out of range) fall back to
`00:00` — as does any input whose fields do not parse.  For colon-less
input, however, no subtraction is applied: a bare hour `≥ 24` falls back to
`00:00` (this is where the claim as frozen fails, see the
counterexample). -/
theorem C9_parse_time_amended :
    (∀ s : String, (parse_time s).hour < 24 ∧ (parse_time s).minute < 60) ∧
    (∀ h m : Int, 24 ≤ h → h < 48 → 0 ≤ m → m ≤ 59 →
      parse_time_fields [some h, some m] = ⟨(h - 24).toNat, m.toNat⟩) ∧
    (∀ h m : Int, 0 ≤ h → h < 24 → 0 ≤ m → m ≤ 59 →
      parse_time_fields [some h, some m] = ⟨h.toNat, m.toNat⟩) ∧
    (∀ h m : Int, h < 0 ∨ 48 ≤ h ∨ m < 0 ∨ 60 ≤ m →
      parse_time_fields [some h, some m] = ⟨0, 0⟩) ∧
    (∀ (s : String) (h : Int), py_int s = some h → s.toList.contains ':' = false →
      24 ≤ h → parse_time s = ⟨0, 0⟩) := by
  refine ⟨?_, ?_, ?_, ?_, ?_⟩
  · intro s
    unfold parse_time
    split
    · exact parse_time_fields_valid _
    · split
      · exact mk_py_time_getD_valid _ _
      · simp
  · intro h m h24 h48 hm0 hm59
    show (mk_py_time (if h ≥ 24 then h - 24 else h) m).getD ⟨0, 0⟩ = _
    rw [if_pos h24]
    unfold mk_py_time
    rw [if_pos (by omega)]
    rfl
  · intro h m h0 h24 hm0 hm59
    show (mk_py_time (if h ≥ 24 then h - 24 else h) m).getD ⟨0, 0⟩ = _
    rw [if_neg (by omega)]
    unfold mk_py_time
    rw [if_pos (by omega)]
    rfl
  · intro h m hbad
    show (mk_py_time (if h ≥ 24 then h - 24 else h) m).getD ⟨0, 0⟩ = _
    unfold mk_py_time
    split
    · rw [if_neg (by omega)]
      rfl
    · rw [if_neg (by omega)]
      rfl
  · intro s h hparse hnocolon h24
    unfold parse_time
    rw [hnocolon]
    simp only [Bool.false_eq_true, if_false, hparse]
    unfold mk_py_time
    rw [if_neg (by omega)]
    rfl

/-- C9 counterexample.  The claim as frozen asserts that every hour value
of 24 or above has 24 subtracted once before construction; for the
colon-less input `"25"` this would yield `01:00`, but the code never
subtracts in that branch and falls back to `00:00`. -/
theorem C9_cex : parse_time "25" = ⟨0, 0⟩ ∧ parse_time "25" ≠ ⟨1, 0⟩ := by
  constructor
  · decide
  · decide

/-- C9 witness: the amended theorem applied at the concrete fields `30:15`
(hour `30` becomes `6` after the single subtraction). -/
theorem C9_witness : parse_time_fields [some 30, some 15] = ⟨6, 15⟩ :=
  C9_parse_time_amended.2.1 30 15 (by decide) (by decide) (by decide) (by decide)

/-! ## Claim C7: the sanity filter of `_is_route_logical` -/

theorem consecutive_scan_false_iff :
    ∀ (l : List RouteSegment) (count : Nat),
      consecutive_scan count l = false ↔
        ((1 ≤ count ∧ ∃ a t, l = a :: a :: t) ∨
          has_three_consecutive_identical l = true)
  | [], count => by simp [consecutive_scan, has_three_consecutive_identical]
  | [x], count => by simp [consecutive_scan, has_three_consecutive_identical]
  | [x, y], count => by
    rw [consecutive_scan]
    by_cases hxy : x = y
    · subst hxy
      rw [if_pos rfl]
      by_cases hc : 1 ≤ count
      · rw [if_pos (by omega)]
        constructor
        · intro _
          exact Or.inl ⟨hc, x, [], rfl⟩
        · intro _
          rfl
      · rw [if_neg (by omega)]
        simp only [consecutive_scan, has_three_consecutive_identical]
        constructor
        · intro h
          cases h
        · rintro (⟨hcge, -⟩ | h3)
          · omega
          · cases h3
    · rw [if_neg hxy]
      simp only [consecutive_scan, has_three_consecutive_identical]
      constructor
      · intro h
        cases h
      · rintro (⟨-, a, t, hat⟩ | h3)
        · injection hat with h1 h2
          injection h2 with h2 hrest
          exact absurd (h1.trans h2.symm) hxy
        · cases h3
  | s1 :: s2 :: s3 :: rest, count => by
    rw [consecutive_scan]
    by_cases h12 : s1 = s2
    · subst h12
      rw [if_pos rfl]
      by_cases hc : 1 ≤ count
      · rw [if_pos (by omega)]
        constructor
        · intro _
          exact Or.inl ⟨hc, s1, s3 :: rest, rfl⟩
        · intro _
          rfl
      · rw [if_neg (by omega)]
        rw [consecutive_scan_false_iff (s1 :: s3 :: rest) (count + 1)]
        simp only [has_three_consecutive_identical]
        constructor
        · rintro (⟨-, a, t, hat⟩ | h3)
          · injection hat with h1 h2
            subst h1
            injection h2 with h3eq hrest
            right
            simp [h3eq]
          · right
            simp [h3]
        · rintro (⟨hcge, -⟩ | h3)
          · omega
          · rw [Bool.or_eq_true] at h3
            rcases h3 with h | h
            · have hs13 : s1 = s3 := by
                rw [Bool.and_eq_true] at h
                simpa using h.2
              exact Or.inl ⟨by omega, s1, rest, by rw [← hs13]⟩
            · exact Or.inr h
    · rw [if_neg h12]
      rw [consecutive_scan_false_iff (s2 :: s3 :: rest) 0]
      simp only [has_three_consecutive_identical]
      constructor
      · rintro (⟨hc0, -⟩ | h3)
        · omega
        · right
          simp [h3]
      · rintro (⟨-, a, t, hat⟩ | h3)
        · injection hat with h1 h2
          injection h2 with h2 hrest
          exact absurd (h1.trans h2.symm) h12
        · rw [Bool.or_eq_true] at h3
          rcases h3 with h | h
          · rw [Bool.and_eq_true] at h
            exact absurd (by simpa using h.1) h12
          · exact Or.inr h

/-- C7 (confirmed).  A nonempty processed route (the segmenter always emits
at least one segment for a surfaced route) is rejected by
`_is_route_logical` exactly when it contains more than 2 consecutive
fully-identical `(line, from, to, type)` segments — i.e. three in a row —
or more than 20 segments; an over-long route is rejected whole, the
function never truncates. -/
theorem C7_is_route_logical_iff (segments : List RouteSegment)
    (hne : segments ≠ []) :
    is_route_logical segments = false ↔
      (has_three_consecutive_identical segments = true ∨ segments.length > 20) := by
  unfold is_route_logical
  rw [if_neg hne]
  rcases hscan : consecutive_scan 0 segments with - | -
  · rw [if_pos rfl]
    have := (consecutive_scan_false_iff segments 0).mp hscan
    simp only [true_iff]
    rcases this with ⟨h1, -⟩ | h3
    · omega
    · exact Or.inl h3
  · rw [if_neg (by simp)]
    by_cases hlen : segments.length > 20
    · rw [if_pos hlen]
      simp [hlen]
    · rw [if_neg hlen]
      have h3 : ¬ has_three_consecutive_identical segments = true := by
        intro h
        have : consecutive_scan 0 segments = false :=
          (consecutive_scan_false_iff segments 0).mpr (Or.inr h)
        rw [this] at hscan
        cases hscan
      simp [h3, hlen]

/-- C7 witness: the characterization applied to a concrete route of three
identical segments (rejected) — all definitions evaluated by `decide`. -/
theorem C7_witness :
    is_route_logical (List.replicate 3 ⟨"1", "X", "Y", "normal"⟩) = false ↔
      (has_three_consecutive_identical (List.replicate 3 ⟨"1", "X", "Y", "normal"⟩) = true ∨
        (List.replicate 3 (⟨"1", "X", "Y", "normal"⟩ : RouteSegment)).length > 20) :=
  C7_is_route_logical_iff (List.replicate 3 ⟨"1", "X", "Y", "normal"⟩) (by decide)

/-! ## Claim C1: edge costs and the continuity penalty -/

theorem line_change_penalized_iff (prefer : Bool) (cl : Option String) (nl : String) :
    line_change_penalized prefer cl nl = true ↔
      prefer = true ∧ ∃ c, cl = some c ∧ nl ≠ c ∧ nl ≠ "transfer" := by
  unfold line_change_penalized
  cases cl with
  | none => simp
  | some c =>
    simp only [Bool.and_eq_true, Option.isSome_some, bne_iff_ne, ne_eq,
      Option.some.injEq]
    constructor
    · rintro ⟨⟨⟨hp, -⟩, hne⟩, ht⟩
      exact ⟨hp, c, rfl, hne, ht⟩
    · rintro ⟨hp, c', hc', hne, ht⟩
      subst hc'
      exact ⟨⟨⟨hp, trivial⟩, hne⟩, ht⟩

theorem get_line_between_transfer (g : MetroGraph) (a b : String) (t : ℚ)
    (hadj : adj_entry g a b = some ("transfer", t)) :
    get_line_between_stations g a b = "Correspondance" := by
  unfold get_line_between_stations
  rw [hadj]
  rfl

/-- C1 (corrected).  The A* edge cost is `1.0` plus a `0.2` penalty and the
Dijkstra edge cost is `1.0` plus a `0.15` penalty, each applied exactly when
`prefer_line_continuity` is set, the line used to reach the current station
is not `None`, and the candidate edge label differs from it and from the
literal string `"transfer"`.  However, in the unique-edges graph a
walking-transfer edge (adjacency route id `"transfer"`) is labelled
`"Correspondance"` by `_get_route_short_name`, never `"transfer"`, so a
walking-transfer edge DOES incur the continuity penalty whenever the
arriving line differs from `"Correspondance"` — the claim that no
walking-transfer edge is ever penalized fails (see the counterexample). -/
theorem C1_edge_cost_amended :
    (∀ (prefer : Bool) (current_line : Option String) (neighbor_line : String),
      (a_star_edge_cost prefer current_line neighbor_line = 1 ∨
        a_star_edge_cost prefer current_line neighbor_line = 1 + 2/10) ∧
      (a_star_edge_cost prefer current_line neighbor_line = 1 + 2/10 ↔
        prefer = true ∧ ∃ c, current_line = some c ∧ neighbor_line ≠ c ∧
          neighbor_line ≠ "transfer")) ∧
    (∀ (prefer : Bool) (current_line : Option String) (neighbor_line : String),
      (dijkstra_edge_cost prefer current_line neighbor_line = 1 ∨
        dijkstra_edge_cost prefer current_line neighbor_line = 1 + 15/100) ∧
      (dijkstra_edge_cost prefer current_line neighbor_line = 1 + 15/100 ↔
        prefer = true ∧ ∃ c, current_line = some c ∧ neighbor_line ≠ c ∧
          neighbor_line ≠ "transfer")) ∧
    (∀ (g : MetroGraph) (a b : String) (t : ℚ),
      adj_entry g a b = some ("transfer", t) →
      get_line_between_stations g a b = "Correspondance") ∧
    (∀ (g : MetroGraph) (a b : String) (t : ℚ) (c : String),
      adj_entry g a b = some ("transfer", t) → c ≠ "Correspondance" →
      a_star_edge_cost true (some c) (get_line_between_stations g a b) = 1 + 2/10) := by
  have hq2 : qadd 1 (mkRat 2 10) = (1 + 2/10 : ℚ) := by
    rw [qadd_eq, mkRat_q]
    norm_num
  have hq15 : qadd 1 (mkRat 15 100) = (1 + 15/100 : ℚ) := by
    rw [qadd_eq, mkRat_q]
    norm_num
  have hne2 : (1 : ℚ) ≠ 1 + 2/10 := by norm_num
  have hne15 : (1 : ℚ) ≠ 1 + 15/100 := by norm_num
  have hpen2 : ∀ prefer cl nl, a_star_edge_cost prefer cl nl =
      if line_change_penalized prefer cl nl then (1 + 2/10 : ℚ) else 1 := by
    intro prefer cl nl
    unfold a_star_edge_cost
    split
    · exact hq2
    · rfl
  have hpen15 : ∀ prefer cl nl, dijkstra_edge_cost prefer cl nl =
      if line_change_penalized prefer cl nl then (1 + 15/100 : ℚ) else 1 := by
    intro prefer cl nl
    unfold dijkstra_edge_cost
    split
    · exact hq15
    · rfl
  refine ⟨?_, ?_, get_line_between_transfer, ?_⟩
  · intro prefer cl nl
    rw [hpen2]
    rcases hp : line_change_penalized prefer cl nl with - | -
    · rw [if_neg (by simp [hp])]
      constructor
      · exact Or.inl rfl
      · rw [← line_change_penalized_iff, hp]
        constructor
        · intro h
          exact absurd h hne2
        · intro h
          cases h
    · rw [if_pos (by simp [hp])]
      constructor
      · exact Or.inr rfl
      · rw [← line_change_penalized_iff, hp]
        simp
  · intro prefer cl nl
    rw [hpen15]
    rcases hp : line_change_penalized prefer cl nl with - | -
    · rw [if_neg (by simp [hp])]
      constructor
      · exact Or.inl rfl
      · rw [← line_change_penalized_iff, hp]
        constructor
        · intro h
          exact absurd h hne15
        · intro h
          cases h
    · rw [if_pos (by simp [hp])]
      constructor
      · exact Or.inr rfl
      · rw [← line_change_penalized_iff, hp]
        simp
  · intro g a b t c hadj hc
    rw [get_line_between_transfer g a b t hadj, hpen2]
    rw [if_pos ((line_change_penalized_iff _ _ _).mpr
      ⟨rfl, c, rfl, fun h => hc h.symm, by decide⟩)]

/-- C1 counterexample.  On a walking-transfer edge the label is
`"Correspondance"`, the penalty guard `neighbor_line != "transfer"` passes,
and the A* edge cost is `1.2`, not the un-penalized `1.0` the claim
requires. -/
theorem C1_cex :
    adj_entry c1_graph "A" "T" = some ("transfer", 1) ∧
    get_line_between_stations c1_graph "A" "T" = "Correspondance" ∧
    a_star_edge_cost true (some "1") (get_line_between_stations c1_graph "A" "T") =
      1 + 2/10 ∧
    (1 + 2/10 : ℚ) ≠ 1 := by
  have h12 : (1 + 2/10 : ℚ) = qadd 1 (mkRat 2 10) := by
    rw [qadd_eq, mkRat_q]
    norm_num
  refine ⟨by decide, by decide, ?_, by norm_num⟩
  rw [h12]
  decide

/-- C1 witness: the amended theorem applied to the concrete transfer edge of
`c1_graph` with arriving line `"1"`. -/
theorem C1_witness :
    a_star_edge_cost true (some "1") (get_line_between_stations c1_graph "A" "T") =
      1 + 2/10 :=
  C1_edge_cost_amended.2.2.2 c1_graph "A" "T" 1 "1" (by decide) (by decide)

/-! ## Claim C5: `find_optimal_path` on a start equal to the end -/

/-- C5 (confirmed).  For every station of the graph,
`find_optimal_path(graph, s, s, prefer_line_continuity)` returns the
zero-cost singleton path `[s]`, for either value of the flag (the `start ==
end` shortcut of `a_star_pathfinding` fires and `find_optimal_path` returns
its result directly). -/
theorem C5_find_optimal_path_self (g : MetroGraph) (h : String → String → ℚ)
    (s : String) (prefer : Bool) (hs : s ∈ g.nodes) :
    find_optimal_path g h s s prefer = some ([s], 0) := by
  have ha : a_star_pathfinding g h s s prefer = some ([s], 0) := by
    unfold a_star_pathfinding
    rw [if_neg (by simp [hs]), if_pos rfl]
  unfold find_optimal_path
  rw [ha]

/-- C5 witness: the theorem applied to the one-station graph. -/
theorem C5_witness :
    find_optimal_path c5_graph (fun _ _ => 0) "A" "A" true = some (["A"], 0) :=
  C5_find_optimal_path_self c5_graph (fun _ _ => 0) "A" true (by decide)

/-! ## Claim C8: the departure scan is capped and wraps to the next day -/

/-- C8 (confirmed).  The wrap-around departure enumeration of
`get_next_departure` is insensitive to any fuel at least as large as the
explicit `departure_number > 1000` cap of the source (so the loop always
terminates within the cap, falling back to `_find_next_service_time`), and
on the scenario table `{"05:30-23:00": 5}` for line `"1"` a query at `23:30`
(minute 1410) resolves to the next day's `05:30` departure (minute 1770)
rather than looping. -/
theorem C8_departure_scan_capped :
    (∀ (freqs : FreqTable) (line : String) (current_time first_departure travel : ℚ)
       (frequency : Nat) (rs et : PyTime) (fuel fuel' n : Nat),
       n ≤ 1000 → 1001 - n ≤ fuel → 1001 - n ≤ fuel' →
       next_departure_scan freqs line current_time first_departure frequency travel
           rs et fuel n =
         next_departure_scan freqs line current_time first_departure frequency travel
           rs et fuel' n) ∧
    get_next_departure [("1", [(("05:30", "23:00"), 5)])] "1" 1410 none none none =
      some 1770 := by
  constructor
  · intro freqs line current_time first_departure travel frequency rs et fuel
    induction fuel with
    | zero =>
      intro fuel' n hn hf hf'
      omega
    | succ f ih =>
      intro fuel' n hn hf hf'
      cases fuel' with
      | zero => omega
      | succ f' =>
        rw [next_departure_scan, next_departure_scan]
        split
        · rfl
        · split
          · rfl
          · next hcap =>
            exact ih f' (n + 1) (by omega) (by omega) (by omega)
  · decide

/-- C8 witness: fuel-insensitivity applied at concrete arguments (fuel
`2000` versus the cap fuel `1001`). -/
theorem C8_witness :
    next_departure_scan [("1", [(("05:30", "23:00"), 5)])] "1" 300 330 5 0
        ⟨5, 30⟩ ⟨23, 0⟩ 2000 0 =
      next_departure_scan [("1", [(("05:30", "23:00"), 5)])] "1" 300 330 5 0
        ⟨5, 30⟩ ⟨23, 0⟩ 1001 0 :=
  C8_departure_scan_capped.1 [("1", [(("05:30", "23:00"), 5)])] "1" 300 330 0 5
    ⟨5, 30⟩ ⟨23, 0⟩ 2000 1001 0 (by decide) (by decide) (by decide)

/-! ## Claim C10: departures are strictly in the future and the journey
clock is monotone -/

theorem day_start_le (t : ℚ) : day_start t ≤ t := by
  rw [day_start, qmul_eq, qfloor_eq, qdiv_eq]
  have h := Int.floor_le (t / 1440)
  have h2 : (1440 : ℚ) * ((⌊t / 1440⌋ : ℤ) : ℚ) ≤ 1440 * (t / 1440) := by linarith
  have h3 : (1440 : ℚ) * (t / 1440) = t := by ring
  linarith [h2, h3.le, h3.ge]

theorem lt_day_start_add (t : ℚ) : t < day_start t + 1440 := by
  rw [day_start, qmul_eq, qfloor_eq, qdiv_eq]
  have h := Int.lt_floor_add_one (t / 1440)
  have h2 : (1440 : ℚ) * (t / 1440) < 1440 * (((⌊t / 1440⌋ : ℤ) : ℚ) + 1) := by linarith
  have h3 : (1440 : ℚ) * (t / 1440) = t := by ring
  push_cast at h2 ⊢
  linarith

theorem foldl_qmin_mem : ∀ (xs : List ℚ) (x : ℚ), xs.foldl qmin x ∈ x :: xs
  | [], x => by simp
  | y :: ys, x => by
    have h := foldl_qmin_mem ys (qmin x y)
    rw [List.mem_cons] at h
    have hxy : qmin x y = x ∨ qmin x y = y := by
      rw [qmin]
      split
      · exact Or.inl rfl
      · exact Or.inr rfl
    simp only [List.foldl_cons, List.mem_cons]
    rcases h with h | h
    · rcases hxy with h' | h'
      · exact Or.inl (h.trans h')
      · exact Or.inr (Or.inl (h.trans h'))
    · exact Or.inr (Or.inr h)

theorem next_services_list_gt (line_schedule : List FreqRange) (current_time : ℚ) :
    ∀ v ∈ next_services_list line_schedule current_time, current_time < v := by
  intro v hv
  rw [next_services_list, List.mem_flatMap] at hv
  obtain ⟨r, -, hv⟩ := hv
  simp only [List.mem_append, List.mem_singleton] at hv
  rcases hv with hv | hv
  · split at hv
    · next hgt =>
      simp only [List.mem_singleton] at hv
      subst hv
      exact hgt
    · simp at hv
  · subst hv
    rw [qadd_eq, qadd_eq]
    have h1 := lt_day_start_add current_time
    have h2 : (0 : ℚ) ≤ ((parse_time r.1.1).toMin : ℚ) := by positivity
    linarith

theorem find_next_service_time_gt (freqs : FreqTable) (line : String)
    (current_time d : ℚ)
    (h : find_next_service_time freqs line current_time = some d) :
    current_time < d := by
  unfold find_next_service_time at h
  split at h
  · cases h
  · next sched hl =>
    split at h
    · cases h
    · next x xs hserv =>
      injection h with h
      subst h
      have hmem := foldl_qmin_mem xs x
      rw [← hserv] at hmem
      exact next_services_list_gt sched current_time _ hmem

theorem next_departure_scan_gt (freqs : FreqTable) (line : String)
    (current_time first_departure travel : ℚ) (frequency : Nat) (rs et : PyTime) :
    ∀ (fuel n : Nat) (d : ℚ),
      next_departure_scan freqs line current_time first_departure frequency travel
        rs et fuel n = some d → current_time < d
  | 0, n, d, h => find_next_service_time_gt freqs line current_time d h
  | fuel + 1, n, d, h => by
    rw [next_departure_scan] at h
    split at h
    · next harr =>
      split at h
      · injection h with h
        subst h
        exact harr
      · exact find_next_service_time_gt freqs line current_time d h
    · split at h
      · exact find_next_service_time_gt freqs line current_time d h
      · exact next_departure_scan_gt freqs line current_time first_departure travel
          frequency rs et fuel (n + 1) d h

theorem get_next_departure_gt (freqs : FreqTable) (line : String) (current_time : ℚ)
    (fs ts : Option String) (graph : Option MetroGraph) (d : ℚ)
    (h : get_next_departure freqs line current_time fs ts graph = some d) :
    current_time < d := by
  unfold get_next_departure at h
  split at h
  · exact find_next_service_time_gt freqs line current_time d h
  · simp only [] at h
    split at h
    · exact find_next_service_time_gt freqs line current_time d h
    · exact next_departure_scan_gt freqs line current_time _ _ _ _ _ 1001 0 d h

theorem round1_nonneg (q : ℚ) (h : 0 ≤ q) : 0 ≤ round1 q := by
  rw [round1_eq]
  have h10 : (0 : ℚ) ≤ 10 * q := by linarith
  have : (0 : ℤ) ≤ round (10 * q) := by
    rw [round_eq]
    rw [Int.floor_nonneg]
    linarith
  positivity

/-- C10 (confirmed).  Every `datetime` returned by `get_next_departure` is
strictly later than the `current_time` argument; consequently every segment
emitted by `calculate_journey_time_with_schedule` has non-negative
`waiting_time`, departs no earlier than the requested departure time,
arrives no earlier than it departs, and the itinerary clock never moves
backwards across consecutive segments. -/
theorem C10_next_departure_strictly_later :
    (∀ (freqs : FreqTable) (line : String) (current_time : ℚ)
       (fs ts : Option String) (graph : Option MetroGraph) (d : ℚ),
       get_next_departure freqs line current_time fs ts graph = some d →
       current_time < d) ∧
    (∀ (freqs : FreqTable) (graph : Option MetroGraph)
       (route_path : List PathSegment) (t0 : ℚ) (r : JourneyOk),
       calculate_journey_time_with_schedule freqs route_path t0 graph = .ok r →
       (∀ s ∈ r.segments, 0 ≤ s.waiting_time ∧ t0 ≤ s.departure_time ∧
          s.departure_time ≤ s.arrival_time) ∧
       List.Chain' (fun a b => a.arrival_time ≤ b.departure_time) r.segments) := by
  constructor
  · exact get_next_departure_gt
  · intro freqs graph route_path t0 r hr
    unfold calculate_journey_time_with_schedule at hr
    suffices hgen : ∀ (groups : List SegmentGroup) (t tw : ℚ)
        (acc : List ScheduledSegment) (r : JourneyOk),
        journey_go freqs graph t0 groups t tw acc = .ok r →
        t0 ≤ t →
        (∀ s ∈ acc, 0 ≤ s.waiting_time ∧ t0 ≤ s.departure_time ∧
          s.departure_time ≤ s.arrival_time) →
        List.Chain' (fun a b => a.arrival_time ≤ b.departure_time) acc →
        (∀ s ∈ acc, s.arrival_time ≤ t) →
        (∀ s ∈ r.segments, 0 ≤ s.waiting_time ∧ t0 ≤ s.departure_time ∧
          s.departure_time ≤ s.arrival_time) ∧
        List.Chain' (fun a b => a.arrival_time ≤ b.departure_time) r.segments by
      exact hgen _ t0 0 [] r hr le_rfl (by simp) (by simp) (by simp)
    intro groups
    induction groups with
    | nil =>
      intro t tw acc r hr ht hacc hchain hlast
      rw [journey_go] at hr
      injection hr with hr
      subst hr
      exact ⟨hacc, hchain⟩
    | cons grp rest ih =>
      intro t tw acc r hr ht hacc hchain hlast
      rw [journey_go] at hr
      split at hr
      · -- transfer segment
        refine ih _ _ _ r hr ?_ ?_ ?_ ?_
        · rw [qadd_eq]
          have : (0 : ℚ) ≤ (grp.total_travel_time : ℚ) := by positivity
          linarith
        · intro s hs
          rw [List.mem_append, List.mem_singleton] at hs
          rcases hs with hs | hs
          · exact hacc s hs
          · subst hs
            refine ⟨le_rfl, ht, ?_⟩
            rw [qadd_eq]
            have : (0 : ℚ) ≤ (grp.total_travel_time : ℚ) := by positivity
            simp [this]
        · apply List.Chain'.append hchain (by simp)
          intro a ha b hb
          simp only [List.mem_singleton, List.head?_cons, Option.mem_def,
            Option.some.injEq] at hb
          subst hb
          exact hlast a (List.mem_of_mem_getLast? ha)
        · intro s hs
          rw [List.mem_append, List.mem_singleton] at hs
          have hwalk : (0 : ℚ) ≤ (grp.total_travel_time : ℚ) := by positivity
          rcases hs with hs | hs
          · have := hlast s hs
            rw [qadd_eq]
            linarith
          · subst hs
            simp
      · -- metro segment
        rcases hnd : get_next_departure freqs grp.line t
            (some grp.from_station) (some grp.to_station) graph with - | nd
        · rw [hnd] at hr
          cases hr
        · rw [hnd] at hr
          have htnd : t < nd := get_next_departure_gt _ _ _ _ _ _ _ hnd
          have htravel : (0 : ℚ) ≤ (grp.total_travel_time : ℚ) := by positivity
          refine ih _ _ _ r hr ?_ ?_ ?_ ?_
          · rw [qadd_eq]
            linarith
          · intro s hs
            rw [List.mem_append, List.mem_singleton] at hs
            rcases hs with hs | hs
            · exact hacc s hs
            · subst hs
              refine ⟨?_, by linarith, ?_⟩
              · apply round1_nonneg
                rw [qsub_eq]
                linarith
              · rw [qadd_eq]
                simp [htravel]
          · apply List.Chain'.append hchain (by simp)
            intro a ha b hb
            simp only [List.mem_singleton, List.head?_cons, Option.mem_def,
              Option.some.injEq] at hb
            subst hb
            have := hlast a (List.mem_of_mem_getLast? ha)
            simpa using le_trans this htnd.le
          · intro s hs
            rw [List.mem_append, List.mem_singleton] at hs
            rcases hs with hs | hs
            · have := hlast s hs
              rw [qadd_eq]
              linarith
            · subst hs
              simp

/-- C10 witness: the strict-future property applied at the concrete C8
scenario departure. -/
theorem C10_witness : (1410 : ℚ) < 1770 :=
  C10_next_departure_strictly_later.1 [("1", [(("05:30", "23:00"), 5)])] "1" 1410
    none none none 1770 (by decide)

/-! ## Claim C2: journey totals

The code computes `total_travel_time` from the requested departure time,
while every segment `departure_time` already includes its waiting; the
proofs below need that every `datetime` produced by `get_next_departure` is
a whole number of minutes (`IsIntQ`), so that only the first waiting period
of an itinerary can be fractional and the per-segment rounding commutes
with the total. -/

theorem isIntQ_intCast (n : ℤ) : IsIntQ (n : ℚ) := ⟨n, rfl⟩

theorem isIntQ_natCast (n : ℕ) : IsIntQ (n : ℚ) := ⟨n, by push_cast; ring⟩

theorem isIntQ_ofNat (n : ℕ) [n.AtLeastTwo] :
    IsIntQ (OfNat.ofNat n : ℚ) := ⟨OfNat.ofNat n, by simp⟩

theorem isIntQ_zero : IsIntQ (0 : ℚ) := ⟨0, by norm_num⟩

theorem isIntQ_one : IsIntQ (1 : ℚ) := ⟨1, by norm_num⟩

theorem IsIntQ.qadd {a b : ℚ} (ha : IsIntQ a) (hb : IsIntQ b) : IsIntQ (qadd a b) := by
  obtain ⟨m, rfl⟩ := ha
  obtain ⟨n, rfl⟩ := hb
  exact ⟨m + n, by rw [qadd_eq]; push_cast; ring⟩

theorem IsIntQ.qsub {a b : ℚ} (ha : IsIntQ a) (hb : IsIntQ b) : IsIntQ (qsub a b) := by
  obtain ⟨m, rfl⟩ := ha
  obtain ⟨n, rfl⟩ := hb
  exact ⟨m - n, by rw [qsub_eq]; push_cast; ring⟩

theorem IsIntQ.qmul {a b : ℚ} (ha : IsIntQ a) (hb : IsIntQ b) : IsIntQ (qmul a b) := by
  obtain ⟨m, rfl⟩ := ha
  obtain ⟨n, rfl⟩ := hb
  exact ⟨m * n, by rw [qmul_eq]; push_cast; ring⟩

theorem IsIntQ.qmin {a b : ℚ} (ha : IsIntQ a) (hb : IsIntQ b) : IsIntQ (qmin a b) := by
  rw [Hurry.qmin]
  split
  · exact ha
  · exact hb

theorem IsIntQ.qmax {a b : ℚ} (ha : IsIntQ a) (hb : IsIntQ b) : IsIntQ (qmax a b) := by
  rw [Hurry.qmax]
  split
  · exact hb
  · exact ha

theorem day_start_int (t : ℚ) : IsIntQ (day_start t) :=
  ⟨1440 * ⌊t / 1440⌋, by
    rw [day_start, qmul_eq, qfloor_eq, qdiv_eq]
    push_cast
    ring⟩

theorem next_services_list_int (sched : List FreqRange) (t : ℚ) :
    ∀ v ∈ next_services_list sched t, IsIntQ v := by
  intro v hv
  rw [next_services_list, List.mem_flatMap] at hv
  obtain ⟨r, -, hv⟩ := hv
  simp only [List.mem_append, List.mem_singleton] at hv
  rcases hv with hv | hv
  · split at hv
    · simp only [List.mem_singleton] at hv
      subst hv
      exact (day_start_int t).qadd (isIntQ_natCast _)
    · simp at hv
  · subst hv
    exact ((day_start_int t).qadd (isIntQ_ofNat 1440)).qadd (isIntQ_natCast _)

theorem find_next_service_time_int (freqs : FreqTable) (line : String)
    (t d : ℚ) (h : find_next_service_time freqs line t = some d) : IsIntQ d := by
  unfold find_next_service_time at h
  split at h
  · cases h
  · next sched hl =>
    split at h
    · cases h
    · next x xs hserv =>
      injection h with h
      subst h
      have hmem := foldl_qmin_mem xs x
      rw [← hserv] at hmem
      exact next_services_list_int sched t _ hmem

theorem foldl_pick_mem {α : Type} (f : α → α → Bool) :
    ∀ (xs : List α) (x : α),
      xs.foldl (fun acc y => if f y acc then y else acc) x ∈ x :: xs
  | [], x => by simp
  | y :: ys, x => by
    have h := foldl_pick_mem f ys (if f y x then y else x)
    rw [List.mem_cons] at h
    simp only [List.foldl_cons, List.mem_cons]
    rcases h with h | h
    · rw [h]
      split
      · exact Or.inr (Or.inl rfl)
      · exact Or.inl rfl
    · exact Or.inr (Or.inr h)

theorem pop_min_dist_mem (q : List (ℚ × String)) (m : ℚ × String)
    (rest : List (ℚ × String)) (h : pop_min_dist q = some (m, rest)) :
    m ∈ q ∧ ∀ e ∈ rest, e ∈ q := by
  match q, h with
  | x :: xs, h =>
    rw [pop_min_dist] at h
    injection h with h
    have h1 : m = xs.foldl (fun acc y => if dist_pair_lt y acc then y else acc) x := by
      have := congrArg Prod.fst h
      simpa using this.symm
    have h2 : rest = (x :: xs).erase m := by
      have := congrArg Prod.snd h
      simp at this
      rw [← this, h1]
    have hm : m ∈ x :: xs := by
      rw [h1]
      exact foldl_pick_mem _ xs x
    refine ⟨hm, ?_⟩
    intro e he
    rw [h2] at he
    exact (x :: xs).mem_of_mem_erase he

theorem dist_relax_int (visited : List String) (cd : ℚ) (hcd : IsIntQ cd) :
    ∀ (nbrs : List String) (q : List (ℚ × String)) (dist : String → Option ℚ),
      (∀ e ∈ q, IsIntQ e.1) → (∀ v r, dist v = some r → IsIntQ r) →
      (∀ e ∈ (dist_relax visited cd nbrs q dist).1, IsIntQ e.1) ∧
      (∀ v r, (dist_relax visited cd nbrs q dist).2 v = some r → IsIntQ r)
  | [], q, dist, hq, hd => ⟨hq, hd⟩
  | nb :: rest, q, dist, hq, hd => by
    rw [dist_relax]
    split
    · exact dist_relax_int visited cd hcd rest q dist hq hd
    · simp only []
      split
      · apply dist_relax_int visited cd hcd rest
        · intro e he
          rw [List.mem_append, List.mem_singleton] at he
          rcases he with he | he
          · exact hq e he
          · subst he
            exact hcd.qadd isIntQ_one
        · intro v r hvr
          by_cases hv : v = nb
          · subst hv
            rw [if_pos rfl] at hvr
            injection hvr with hvr
            subst hvr
            exact hcd.qadd isIntQ_one
          · rw [if_neg hv] at hvr
            exact hd v r hvr
      · exact dist_relax_int visited cd hcd rest q dist hq hd

theorem dist_loop_int (g : MetroGraph) (s2 : String) :
    ∀ (fuel : Nat) (q : List (ℚ × String)) (dist : String → Option ℚ)
      (visited : List String),
      (∀ e ∈ q, IsIntQ e.1) → (∀ v r, dist v = some r → IsIntQ r) →
      ∀ d, dist_loop g s2 fuel q dist visited = some d → IsIntQ d
  | 0, q, dist, visited, hq, hd, d, h => hd s2 d h
  | fuel + 1, q, dist, visited, hq, hd, d, h => by
    rw [dist_loop] at h
    split at h
    · exact hd s2 d h
    · next cd cs rest hpop =>
      obtain ⟨hm, hrest⟩ := pop_min_dist_mem q (cd, cs) rest hpop
      have hcd : IsIntQ cd := hq (cd, cs) hm
      have hq' : ∀ e ∈ rest, IsIntQ e.1 := fun e he => hq e (hrest e he)
      split at h
      · exact dist_loop_int g s2 fuel rest dist visited hq' hd d h
      · split at h
        · injection h with h
          subst h
          exact hcd
        · obtain ⟨hq2, hd2⟩ := dist_relax_int (cs :: visited) cd hcd
            (get_neighbors g cs) rest dist hq' hd
          exact dist_loop_int g s2 fuel _ _ _ hq2 hd2 d h

theorem calculate_distance_int (g : MetroGraph) (s1 s2 : String) (d : ℚ)
    (h : calculate_distance_between_stations g s1 s2 = some d) : IsIntQ d := by
  unfold calculate_distance_between_stations at h
  split at h
  · injection h with h
    subst h
    exact isIntQ_zero
  · split at h
    · cases h
    · refine dist_loop_int g s2 _ _ _ _ ?_ ?_ d h
      · intro e he
        rw [List.mem_singleton] at he
        subst he
        exact isIntQ_zero
      · intro v r hvr
        split at hvr
        · injection hvr with hvr
          subst hvr
          exact isIntQ_zero
        · cases hvr

theorem travel_time_from_terminus_int (g : MetroGraph) (line fs : String)
    (ts : Option String) :
    IsIntQ (calculate_travel_time_from_terminus g line fs ts) := by
  unfold calculate_travel_time_from_terminus
  simp only []
  split
  · exact ⟨5, by norm_num⟩
  · split
    · next bt heq =>
      rcases hd : calculate_distance_between_stations g bt fs with - | dist
      · exact ⟨5, by norm_num⟩
      · exact IsIntQ.qmax isIntQ_zero
          ((calculate_distance_int g bt fs dist hd).qmul (isIntQ_ofNat 2))
    · exact ⟨5, by norm_num⟩

theorem departure_travel_time_int (line : String) (fs ts : Option String)
    (graph : Option MetroGraph) : IsIntQ (departure_travel_time line fs ts graph) := by
  unfold departure_travel_time
  split
  · split
    · exact travel_time_from_terminus_int _ _ _ _
    · exact isIntQ_zero
  · exact isIntQ_zero

theorem next_departure_scan_int (freqs : FreqTable) (line : String)
    (ct fd travel : ℚ) (frequency : Nat) (rs et : PyTime)
    (hfd : IsIntQ fd) (htr : IsIntQ travel) :
    ∀ (fuel n : Nat) (d : ℚ),
      next_departure_scan freqs line ct fd frequency travel rs et fuel n = some d →
      IsIntQ d
  | 0, n, d, h => find_next_service_time_int freqs line ct d h
  | fuel + 1, n, d, h => by
    rw [next_departure_scan] at h
    split at h
    · split at h
      · injection h with h
        subst h
        exact (hfd.qadd ((isIntQ_natCast n).qmul (isIntQ_natCast frequency))).qadd htr
      · exact find_next_service_time_int freqs line ct d h
    · split at h
      · exact find_next_service_time_int freqs line ct d h
      · exact next_departure_scan_int freqs line ct fd travel frequency rs et hfd htr
          fuel (n + 1) d h

theorem get_next_departure_int (freqs : FreqTable) (line : String) (ct : ℚ)
    (fs ts : Option String) (graph : Option MetroGraph) (d : ℚ)
    (h : get_next_departure freqs line ct fs ts graph = some d) : IsIntQ d := by
  unfold get_next_departure at h
  split at h
  · exact find_next_service_time_int freqs line ct d h
  · simp only [] at h
    split at h
    · exact find_next_service_time_int freqs line ct d h
    · refine next_departure_scan_int freqs line ct _ _ _ _ _ ?_
        (departure_travel_time_int line fs ts graph) 1001 0 d h
      split
      · exact ((day_start_int ct).qadd (isIntQ_natCast _)).qsub (isIntQ_ofNat 1440)
      · exact (day_start_int ct).qadd (isIntQ_natCast _)

theorem round1_int {q : ℚ} (h : IsIntQ q) : round1 q = q := by
  obtain ⟨n, rfl⟩ := h
  rw [round1_eq]
  have : (10 : ℚ) * (n : ℚ) = ((10 * n : ℤ) : ℚ) := by push_cast; ring
  rw [this, round_intCast]
  push_cast
  ring

theorem round1_add_int {a b : ℚ} (hb : IsIntQ b) :
    round1 (a + b) = round1 a + b := by
  obtain ⟨n, rfl⟩ := hb
  rw [round1_eq, round1_eq]
  have : (10 : ℚ) * (a + (n : ℚ)) = 10 * a + ((10 * n : ℤ) : ℚ) := by push_cast; ring
  rw [this, round_add_int]
  push_cast
  ring

theorem journey_go_waits (freqs : FreqTable) (graph : Option MetroGraph) (t0 : ℚ) :
    ∀ (groups : List SegmentGroup) (t tw : ℚ) (acc : List ScheduledSegment)
      (r : JourneyOk),
      journey_go freqs graph t0 groups t tw acc = .ok r →
      (acc.map (·.waiting_time)).sum = round1 tw →
      (IsIntQ t ∨ tw = 0) →
      r.total_waiting_time = (r.segments.map (·.waiting_time)).sum
  | [], t, tw, acc, r, hr, hsum, hstate => by
    rw [journey_go] at hr
    injection hr with hr
    subst hr
    exact hsum.symm
  | grp :: rest, t, tw, acc, r, hr, hsum, hstate => by
    rw [journey_go] at hr
    split at hr
    · -- transfer segment: waiting 0, clock advances by a whole number
      refine journey_go_waits freqs graph t0 rest _ tw _ r hr ?_ ?_
      · simpa using hsum
      · rcases hstate with ht | htw
        · exact Or.inl (ht.qadd (isIntQ_natCast _))
        · exact Or.inr htw
    · rcases hnd : get_next_departure freqs grp.line t
          (some grp.from_station) (some grp.to_station) graph with - | nd
      · rw [hnd] at hr
        cases hr
      · rw [hnd] at hr
        have hndint : IsIntQ nd := get_next_departure_int _ _ _ _ _ _ _ hnd
        refine journey_go_waits freqs graph t0 rest _ _ _ r hr ?_ ?_
        · -- sum invariant
          rw [List.map_append, List.sum_append]
          simp only [List.map_cons, List.map_nil, List.sum_cons, List.sum_nil,
            add_zero]
          rw [hsum, qadd_eq, qsub_eq]
          rcases hstate with ht | htw
          · obtain ⟨n, rfl⟩ := ht
            have hw : IsIntQ (nd - (n : ℚ)) := by
              obtain ⟨m, rfl⟩ := hndint
              exact ⟨m - n, by push_cast; ring⟩
            rw [round1_add_int hw, round1_int hw]
          · subst htw
            rw [zero_add, round1_int (by exact isIntQ_zero), zero_add]
        · exact Or.inl (hndint.qadd (isIntQ_natCast _))

theorem journey_go_final (freqs : FreqTable) (graph : Option MetroGraph) (t0 : ℚ) :
    ∀ (groups : List SegmentGroup) (t tw : ℚ) (acc : List ScheduledSegment)
      (r : JourneyOk),
      journey_go freqs graph t0 groups t tw acc = .ok r →
      (∀ x ∈ acc.getLast?, x.arrival_time = t) →
      (∀ x ∈ r.segments.getLast?, x.arrival_time = r.arrival_time) ∧
      r.total_travel_time = round1 (r.arrival_time - t0) ∧
      r.departure_time = t0
  | [], t, tw, acc, r, hr, hlast => by
    rw [journey_go] at hr
    injection hr with hr
    subst hr
    exact ⟨hlast, by rw [qsub_eq], rfl⟩
  | grp :: rest, t, tw, acc, r, hr, hlast => by
    rw [journey_go] at hr
    split at hr
    · refine journey_go_final freqs graph t0 rest _ tw _ r hr ?_
      intro x hx
      rw [List.getLast?_concat] at hx
      rw [Option.mem_def, Option.some.injEq] at hx
      subst hx
      rfl
    · rcases hnd : get_next_departure freqs grp.line t
          (some grp.from_station) (some grp.to_station) graph with - | nd
      · rw [hnd] at hr
        cases hr
      · rw [hnd] at hr
        refine journey_go_final freqs graph t0 rest _ _ _ r hr ?_
        intro x hx
        rw [List.getLast?_concat] at hx
        rw [Option.mem_def, Option.some.injEq] at hx
        subst hx
        rfl

/-- C2 (corrected).  For every non-error result of
`calculate_journey_time_with_schedule`: `total_waiting_time` equals the sum
of the `waiting_time` values of all segments, but `total_travel_time` is
the (0.1-rounded) difference between the last segment arrival (equal to the
returned `arrival_time`) and the REQUESTED `departure_time` — the first
segment departs only after its initial wait, so last arrival minus first
departure falls short of `total_travel_time` by that wait (see the
counterexample). -/
theorem C2_journey_totals_amended (freqs : FreqTable) (graph : Option MetroGraph)
    (route_path : List PathSegment) (t0 : ℚ) (r : JourneyOk)
    (h : calculate_journey_time_with_schedule freqs route_path t0 graph = .ok r) :
    r.total_waiting_time = (r.segments.map (·.waiting_time)).sum ∧
    r.total_travel_time = round1 (r.arrival_time - t0) ∧
    r.departure_time = t0 ∧
    (∀ hne : r.segments ≠ [], (r.segments.getLast hne).arrival_time = r.arrival_time) := by
  unfold calculate_journey_time_with_schedule at h
  obtain ⟨h1, h2, h3⟩ := journey_go_final freqs graph t0 _ t0 0 [] r h (by simp)
  refine ⟨?_, h2, h3, ?_⟩
  swap
  · intro hne
    exact h1 _ (by rw [List.getLast?_eq_getLast _ hne]; rfl)
  refine journey_go_waits freqs graph t0 _ t0 0 [] r h ?_ (Or.inr rfl)
  simp [round1_int isIntQ_zero]

/-- C2 counterexample.  On this itinerary the last segment arrival minus the
first segment departure is `2` minutes, while the returned
`total_travel_time` is `32` minutes (it includes the initial 30-minute
wait, measuring from the requested departure time), so the claimed equality
fails. -/
theorem C2_cex :
    calculate_journey_time_with_schedule c2_table
        [⟨"S1", "S2", 2, "1"⟩] 300 none = .ok c2_result ∧
    c2_result.segments.getLast!.arrival_time -
        c2_result.segments.head!.departure_time ≠ c2_result.total_travel_time := by
  constructor
  · decide
  · show (332 : ℚ) - 330 ≠ 32
    norm_num

/-- C2 witness: the amended totals applied to the concrete itinerary of the
counterexample table. -/
theorem C2_witness :
    c2_result.total_waiting_time = (c2_result.segments.map (·.waiting_time)).sum ∧
    c2_result.total_travel_time = round1 (c2_result.arrival_time - 300) ∧
    c2_result.departure_time = 300 ∧
    (∀ hne : c2_result.segments ≠ [],
      (c2_result.segments.getLast hne).arrival_time = c2_result.arrival_time) :=
  C2_journey_totals_amended c2_table none [⟨"S1", "S2", 2, "1"⟩] 300 c2_result
    (by decide)

/-! ## C3: absent lines and missing termini -/

theorem get_frequency_for_time_absent (freqs : FreqTable) (line : String) (t : ℚ)
    (h : table_lookup freqs line = none) :
    get_frequency_for_time freqs line t = none := by
  unfold get_frequency_for_time
  rw [h]

theorem find_next_service_time_absent (freqs : FreqTable) (line : String) (t : ℚ)
    (h : table_lookup freqs line = none) :
    find_next_service_time freqs line t = none := by
  unfold find_next_service_time
  rw [h]

theorem get_next_departure_absent (freqs : FreqTable) (line : String) (ct : ℚ)
    (fs ts : Option String) (graph : Option MetroGraph)
    (h : table_lookup freqs line = none) :
    get_next_departure freqs line ct fs ts graph = none := by
  unfold get_next_departure
  rw [get_frequency_for_time_absent freqs line (time_of_day ct) h]
  exact find_next_service_time_absent freqs line ct h

/-- If some remaining metro group rides a line absent from the frequency
table, the journey loop ends in the error dict. -/
theorem journey_go_absent (freqs : FreqTable) (graph : Option MetroGraph) (t0 : ℚ) :
    ∀ (groups : List SegmentGroup) (t tw : ℚ) (acc : List ScheduledSegment),
      (∃ grp ∈ groups, grp.line ∉ journey_transfer_labels ∧
          table_lookup freqs grp.line = none) →
      (journey_go freqs graph t0 groups t tw acc).isError = true
  | [], t, tw, acc, h => by
    obtain ⟨grp, hm, -⟩ := h
    cases hm
  | grp0 :: rest, t, tw, acc, h => by
    rw [journey_go]
    split
    · next hlab =>
      refine journey_go_absent freqs graph t0 rest _ _ _ ?_
      obtain ⟨grp, hm, hg1, hg2⟩ := h
      rcases List.mem_cons.mp hm with heq | hm2
      · subst heq
        exact absurd hlab hg1
      · exact ⟨grp, hm2, hg1, hg2⟩
    · next hlab =>
      rcases hnd : get_next_departure freqs grp0.line t (some grp0.from_station)
          (some grp0.to_station) graph with - | nd
      · rfl
      · refine journey_go_absent freqs graph t0 rest _ _ _ ?_
        obtain ⟨grp, hm, hg1, hg2⟩ := h
        rcases List.mem_cons.mp hm with heq | hm2
        · rw [heq] at hg2
          rw [get_next_departure_absent freqs grp0.line t _ _ graph hg2] at hnd
          cases hnd
        · exact ⟨grp, hm2, hg1, hg2⟩

/-- C3 (corrected).  Only the terminus-search half of the claim holds: when
`_get_line_terminus` finds fewer than two candidates,
`_calculate_travel_time_from_terminus` falls back to the fixed `5.0`-minute
offset.  A line absent from the frequency table, by contrast, does NOT fall
back: `get_next_departure` returns `None` for it (both the frequency lookup
and `_find_next_service_time` miss the table), and
`calculate_journey_time_with_schedule` then fails the whole itinerary with
the error dict. -/
theorem C3_fallback_amended :
    (∀ (g : MetroGraph) (line fs : String) (ts : Option String),
        (get_line_terminus g line).length < 2 →
        calculate_travel_time_from_terminus g line fs ts = 5) ∧
    (∀ (freqs : FreqTable) (route_path : List PathSegment) (t0 : ℚ)
        (graph : Option MetroGraph),
        (∃ grp ∈ group_segments_by_line route_path,
            grp.line ∉ journey_transfer_labels ∧
            table_lookup freqs grp.line = none) →
        (calculate_journey_time_with_schedule freqs route_path t0 graph).isError
          = true) := by
  constructor
  · intro g line fs ts h
    unfold calculate_travel_time_from_terminus
    simp only []
    rw [if_pos h]
  · intro freqs route_path t0 graph h
    unfold calculate_journey_time_with_schedule
    exact journey_go_absent freqs graph t0 _ t0 0 [] h

/-- C3 counterexample.  One metro hop on the line `"A"`, which is absent
from the hard-coded frequency table: the whole itinerary fails with the
error dict instead of falling back to a 5-minute offset. -/
theorem C3_cex :
    calculate_journey_time_with_schedule default_frequencies
        [⟨"S1", "S2", 2, "A"⟩] 300 none =
      .error ("La ligne A ne circule pas à l\u0027heure demandée") ∧
    (calculate_journey_time_with_schedule default_frequencies
        [⟨"S1", "S2", 2, "A"⟩] 300 none).isError = true := by
  decide

/-- C3 witness: the amended theorem applied to the empty graph (no terminus
candidates at all) and to the one-hop itinerary on the absent line `"B"`. -/
theorem C3_witness :
    calculate_travel_time_from_terminus ⟨[], [], []⟩ "1" "S" none = 5 ∧
    (calculate_journey_time_with_schedule default_frequencies
        [⟨"S1", "S2", 2, "B"⟩] 300 none).isError = true := by
  obtain ⟨h1, h2⟩ := C3_fallback_amended
  refine ⟨h1 ⟨[], [], []⟩ "1" "S" none (by decide), ?_⟩
  refine h2 default_frequencies [⟨"S1", "S2", 2, "B"⟩] 300 none ?_
  exact ⟨⟨"B", "S1", "S2", 2, 1, [⟨"S1", "S2", 2, "B"⟩]⟩, by decide, by decide, by decide⟩

/-! ## C4: Dijkstra loop, unreachable direction -/

theorem pop_min_d_spec (q : List DEntry) (m : DEntry) (rest : List DEntry)
    (h : pop_min_d q = some (m, rest)) : m ∈ q ∧ rest = q.erase m := by
  match q, h with
  | x :: xs, h =>
    rw [pop_min_d] at h
    injection h with h
    have h1 : m = xs.foldl (fun acc y => if d_entry_lt y acc then y else acc) x := by
      have := congrArg Prod.fst h
      simpa using this.symm
    have h2 : rest = (x :: xs).erase m := by
      have := congrArg Prod.snd h
      simp at this
      rw [← this, h1]
    refine ⟨?_, h2⟩
    rw [h1]
    exact foldl_pick_mem _ xs x

theorem pop_min_d_none (q : List DEntry) (h : pop_min_d q = none) : q = [] := by
  cases q with
  | nil => rfl
  | cons x xs => simp [pop_min_d] at h

theorem dijkstra_relax_visited (g : MetroGraph) (ec : Option String → String → ℚ)
    (cs : String) (cl : Option String) (cd : ℚ) :
    ∀ (ns : List String) (st : DijkstraState),
      (dijkstra_relax g ec cs cl cd ns st).visited = st.visited
  | [], _ => rfl
  | n :: ns, st => by
    rw [dijkstra_relax]
    split
    · exact dijkstra_relax_visited g ec cs cl cd ns st
    · simp only []
      split
      · exact dijkstra_relax_visited g ec cs cl cd ns _
      · exact dijkstra_relax_visited g ec cs cl cd ns st

theorem dijkstra_relax_pred (g : MetroGraph) (ec : Option String → String → ℚ)
    (cs : String) (cl : Option String) (cd : ℚ) (P : String → Prop) :
    ∀ (ns : List String) (st : DijkstraState),
      (∀ en ∈ st.priority_queue, P en.2.1) → (∀ n ∈ ns, P n) →
      ∀ en ∈ (dijkstra_relax g ec cs cl cd ns st).priority_queue, P en.2.1
  | [], _, hq, _ => hq
  | n :: ns, st, hq, hn => by
    rw [dijkstra_relax]
    split
    · exact dijkstra_relax_pred g ec cs cl cd P ns st hq
        (fun x hx => hn x (List.mem_cons_of_mem _ hx))
    · simp only []
      split
      · refine dijkstra_relax_pred g ec cs cl cd P ns _ ?_
          (fun x hx => hn x (List.mem_cons_of_mem _ hx))
        intro en hen
        rw [List.mem_append, List.mem_singleton] at hen
        rcases hen with hen | hen
        · exact hq en hen
        · rw [hen]
          exact hn n (List.mem_cons_self n ns)
      · exact dijkstra_relax_pred g ec cs cl cd P ns st hq
          (fun x hx => hn x (List.mem_cons_of_mem _ hx))

theorem dijkstra_relax_dist_mono (g : MetroGraph) (ec : Option String → String → ℚ)
    (cs : String) (cl : Option String) (cd : ℚ) :
    ∀ (ns : List String) (st : DijkstraState) (v : String),
      st.distances v ≠ none →
      (dijkstra_relax g ec cs cl cd ns st).distances v ≠ none
  | [], _, _, hv => hv
  | n :: ns, st, v, hv => by
    rw [dijkstra_relax]
    split
    · exact dijkstra_relax_dist_mono g ec cs cl cd ns st v hv
    · simp only []
      split
      · refine dijkstra_relax_dist_mono g ec cs cl cd ns _ v ?_
        dsimp only
        by_cases hvn : v = n
        · simp [hvn]
        · simpa [hvn] using hv
      · exact dijkstra_relax_dist_mono g ec cs cl cd ns st v hv

theorem dijkstra_relax_K (g : MetroGraph) (ec : Option String → String → ℚ)
    (cs : String) (cl : Option String) (cd : ℚ) :
    ∀ (ns : List String) (st : DijkstraState),
      DInvK st → DInvK (dijkstra_relax g ec cs cl cd ns st)
  | [], _, hK => hK
  | n :: ns, st, hK => by
    rw [dijkstra_relax]
    split
    · exact dijkstra_relax_K g ec cs cl cd ns st hK
    · simp only []
      split
      · refine dijkstra_relax_K g ec cs cl cd ns _ ?_
        intro v hv
        dsimp only at hv ⊢
        by_cases hvn : v = n
        · refine Or.inl ⟨_, List.mem_append_right _ (List.mem_singleton_self _), ?_⟩
          rw [hvn]
        · rw [if_neg hvn] at hv
          rcases hK v hv with ⟨en, hen, he⟩ | hvis
          · exact Or.inl ⟨en, List.mem_append_left _ hen, he⟩
          · exact Or.inr hvis
      · exact dijkstra_relax_K g ec cs cl cd ns st hK

theorem dijkstra_relax_Q (g : MetroGraph) (ec : Option String → String → ℚ)
    (cs : String) (cl : Option String) (cd : ℚ) :
    ∀ (ns : List String) (st : DijkstraState),
      DInvQ st → DInvQ (dijkstra_relax g ec cs cl cd ns st)
  | [], _, hQ => hQ
  | n :: ns, st, hQ => by
    rw [dijkstra_relax]
    split
    · exact dijkstra_relax_Q g ec cs cl cd ns st hQ
    · simp only []
      split
      · refine dijkstra_relax_Q g ec cs cl cd ns _ ?_
        intro en hen
        dsimp only at hen ⊢
        by_cases hvn : en.2.1 = n
        · simp [hvn]
        · rw [List.mem_append, List.mem_singleton] at hen
          rcases hen with hen | hen
          · simpa [hvn] using hQ en hen
          · rw [hen] at hvn
            exact absurd rfl hvn
      · exact dijkstra_relax_Q g ec cs cl cd ns st hQ

theorem dijkstra_relax_N (g : MetroGraph) (ec : Option String → String → ℚ)
    (cs : String) (cl : Option String) (cd : ℚ) (ns : List String)
    (st : DijkstraState) (hN : DInvN st) :
    DInvN (dijkstra_relax g ec cs cl cd ns st) := by
  intro v hv
  rw [dijkstra_relax_visited] at hv
  exact dijkstra_relax_dist_mono g ec cs cl cd ns st v (hN v hv)

theorem dijkstra_relax_finite (g : MetroGraph) (ec : Option String → String → ℚ)
    (cs : String) (cl : Option String) (cd : ℚ) :
    ∀ (ns : List String) (st : DijkstraState), DInvN st →
      ∀ n ∈ ns, (dijkstra_relax g ec cs cl cd ns st).distances n ≠ none
  | [], _, _, n, hn => absurd hn (List.not_mem_nil n)
  | n0 :: ns, st, hN, n, hn => by
    rw [dijkstra_relax]
    split
    · next hvis =>
      rcases List.mem_cons.mp hn with heq | hmem
      · rw [heq]
        exact dijkstra_relax_dist_mono g ec cs cl cd ns st n0 (hN n0 hvis)
      · exact dijkstra_relax_finite g ec cs cl cd ns st hN n hmem
    · simp only []
      split
      · rcases List.mem_cons.mp hn with heq | hmem
        · rw [heq]
          refine dijkstra_relax_dist_mono g ec cs cl cd ns _ n0 ?_
          dsimp only
          simp
        · refine dijkstra_relax_finite g ec cs cl cd ns _ ?_ n hmem
          intro v hv
          dsimp only at hv ⊢
          by_cases hvn : v = n0
          · simp [hvn]
          · simpa [hvn] using hN v hv
      · next himp =>
        rcases List.mem_cons.mp hn with heq | hmem
        · rw [heq]
          refine dijkstra_relax_dist_mono g ec cs cl cd ns st n0 ?_
          intro hnone
          rw [hnone] at himp
          exact himp rfl
        · exact dijkstra_relax_finite g ec cs cl cd ns st hN n hmem

theorem dijkstra_relax_queue_len (g : MetroGraph) (ec : Option String → String → ℚ)
    (cs : String) (cl : Option String) (cd : ℚ) :
    ∀ (ns : List String) (st : DijkstraState),
      (dijkstra_relax g ec cs cl cd ns st).priority_queue.length ≤
        st.priority_queue.length + ns.length
  | [], st => Nat.le_refl _
  | n :: ns, st => by
    rw [dijkstra_relax]
    split
    · have := dijkstra_relax_queue_len g ec cs cl cd ns st
      simp only [List.length_cons]
      omega
    · simp only []
      split
      · refine le_trans (dijkstra_relax_queue_len g ec cs cl cd ns _) ?_
        dsimp only
        simp only [List.length_append, List.length_cons, List.length_singleton,
          List.length_nil]
        omega
      · have := dijkstra_relax_queue_len g ec cs cl cd ns st
        simp only [List.length_cons]
        omega

theorem dijkstra_loop_unreachable (g : MetroGraph) (ec : Option String → String → ℚ)
    (s e : String) (hne : ¬ Reachable g s e) :
    ∀ (fuel : Nat) (st : DijkstraState),
      (∀ en ∈ st.priority_queue, Reachable g s en.2.1) →
      (dijkstra_loop g ec e fuel st).getD none = none
  | 0, _, _ => rfl
  | fuel + 1, st, hq => by
    rw [dijkstra_loop]
    split
    · rfl
    · next cd cs cl rest hpop =>
      obtain ⟨hm, hrest⟩ := pop_min_d_spec _ _ _ hpop
      have hq2 : ∀ en ∈ rest, Reachable g s en.2.1 := by
        intro en hen
        rw [hrest] at hen
        exact hq en (List.mem_of_mem_erase hen)
      split
      · exact dijkstra_loop_unreachable g ec s e hne fuel _ hq2
      · simp only []
        split
        · next heq =>
          exact absurd (heq ▸ hq (cd, cs, cl) hm) hne
        · exact dijkstra_loop_unreachable g ec s e hne fuel _
            (dijkstra_relax_pred g ec cs cl cd (Reachable g s) _ _ hq2
              (fun n hn => Relation.ReflTransGen.tail (hq (cd, cs, cl) hm) hn))

theorem dijkstra_pathfinding_unreachable (g : MetroGraph) (s e : String)
    (prefer : Bool) (hne : ¬ Reachable g s e) :
    dijkstra_pathfinding g s e prefer = none := by
  unfold dijkstra_pathfinding
  split
  · rfl
  · split
    · next heq =>
      exact absurd (heq ▸ Relation.ReflTransGen.refl) hne
    · refine dijkstra_loop_unreachable g _ s e hne _ _ ?_
      intro en hen
      have h1 : en = ((0 : ℚ), s, (none : Option String)) := List.mem_singleton.mp hen
      rw [h1]
      exact Relation.ReflTransGen.refl

/-! ## C4: Dijkstra loop, termination and completeness -/

theorem sum_deg_filter_cons (g : MetroGraph) (visited : List String) (c : String)
    (hcv : c ∉ visited) :
    ∀ l : List String, l.Nodup → c ∈ l →
      ((l.filter fun v => decide (v ∉ visited)).map
        fun v => (get_neighbors g v).length).sum =
      (get_neighbors g c).length +
        ((l.filter fun v => decide (v ∉ c :: visited)).map
          fun v => (get_neighbors g v).length).sum
  | [], _, hc => absurd hc (List.not_mem_nil c)
  | a :: l, hnd, hc => by
    rw [List.nodup_cons] at hnd
    obtain ⟨hal, hl⟩ := hnd
    by_cases hca : c = a
    · rw [← hca] at hal ⊢
      rw [List.filter_cons, List.filter_cons]
      rw [if_pos (decide_eq_true hcv)]
      rw [if_neg (by simp)]
      rw [List.map_cons, List.sum_cons]
      congr 1
      have hcong : ∀ v ∈ l, decide (v ∉ visited) = decide (v ∉ c :: visited) := by
        intro v hv
        have hvc : v ≠ c := fun h => hal (h ▸ hv)
        simp [List.mem_cons, hvc]
      rw [List.filter_congr hcong]
    · have hcl : c ∈ l := by
        rcases List.mem_cons.mp hc with h | h
        · exact absurd h hca
        · exact h
      have ih := sum_deg_filter_cons g visited c hcv l hl hcl
      rw [List.filter_cons, List.filter_cons]
      by_cases hav : a ∈ visited
      · rw [if_neg (by simp [hav])]
        rw [if_neg (by simp [hav])]
        exact ih
      · have hac : a ∉ c :: visited := by
          rw [List.mem_cons]
          push_neg
          exact ⟨fun h => hca h.symm, hav⟩
        rw [if_pos (decide_eq_true hav), if_pos (decide_eq_true hac)]
        rw [List.map_cons, List.sum_cons, List.map_cons, List.sum_cons, ih]
        omega

theorem unvisited_deg_cons (g : MetroGraph) (hnd : g.nodes.Nodup) (c : String)
    (hc : c ∈ g.nodes) (visited : List String) (hcv : c ∉ visited) :
    unvisited_deg g visited =
      (get_neighbors g c).length + unvisited_deg g (c :: visited) :=
  sum_deg_filter_cons g visited c hcv g.nodes hnd hc

theorem unvisited_deg_nil (g : MetroGraph) : unvisited_deg g [] = degree_sum g := by
  simp [unvisited_deg, degree_sum]

theorem dijkstra_loop_found (g : MetroGraph) (ec : Option String → String → ℚ)
    (s e : String) (wf : GraphWF g) (hr : Reachable g s e) :
    ∀ (fuel : Nat) (st : DijkstraState),
      DInvK st → DInvL g st → DInvN st → DInvQ st →
      st.distances s ≠ none → e ∉ st.visited →
      (∀ en ∈ st.priority_queue, en.2.1 ∈ g.nodes) →
      dPhi g st < fuel →
      ∃ p c, dijkstra_loop g ec e fuel st = some (some (p, c))
  | 0, _, _, _, _, _, _, _, _, hfuel => absurd hfuel (Nat.not_lt_zero _)
  | fuel + 1, st, hK, hL, hN, hQ, hS, hM, hW, hfuel => by
    rw [dijkstra_loop]
    split
    · next hpop =>
      have hq0 : st.priority_queue = [] := pop_min_d_none _ hpop
      have hvis : ∀ v, Reachable g s v → v ∈ st.visited := by
        intro v hv
        induction hv with
        | refl =>
          rcases hK s hS with ⟨en, hen, -⟩ | h
          · rw [hq0] at hen
            exact absurd hen (List.not_mem_nil en)
          · exact h
        | @tail b c2 hab hbc ih =>
          have hfin : st.distances c2 ≠ none := hL b ih c2 hbc
          rcases hK c2 hfin with ⟨en, hen, -⟩ | h
          · rw [hq0] at hen
            exact absurd hen (List.not_mem_nil en)
          · exact h
      exact absurd (hvis e hr) hM
    · next cd cs cl rest hpop =>
      obtain ⟨hm, hrest⟩ := pop_min_d_spec _ _ _ hpop
      have hcs_dist : st.distances cs ≠ none := hQ (cd, cs, cl) hm
      have hcs_node : cs ∈ g.nodes := hW (cd, cs, cl) hm
      have hrl : rest.length < st.priority_queue.length := by
        rw [hrest, List.length_erase_of_mem hm]
        have hne0 : st.priority_queue.length ≠ 0 := by
          intro h0
          rw [List.length_eq_zero] at h0
          rw [h0] at hm
          exact absurd hm (List.not_mem_nil _)
        omega
      have hrest_sub : ∀ en ∈ rest, en ∈ st.priority_queue := by
        intro en hen
        rw [hrest] at hen
        exact List.mem_of_mem_erase hen
      split
      · next hvisited =>
        refine dijkstra_loop_found g ec s e wf hr fuel _ ?_ hL hN ?_ hS hM ?_ ?_
        · intro v hv
          rcases hK v hv with ⟨en, hen, he⟩ | h
          · by_cases hem : en = (cd, cs, cl)
            · rw [hem] at he
              exact Or.inr (he ▸ hvisited)
            · refine Or.inl ⟨en, ?_, he⟩
              show en ∈ rest
              rw [hrest]
              exact (List.mem_erase_of_ne hem).mpr hen
          · exact Or.inr h
        · intro en hen
          exact hQ en (hrest_sub en hen)
        · intro en hen
          exact hW en (hrest_sub en hen)
        · unfold dPhi at hfuel ⊢
          dsimp only
          omega
      · next hvisited =>
        simp only []
        split
        · exact ⟨_, _, rfl⟩
        · next hneq =>
          have hN1 : DInvN
              { st with priority_queue := rest, visited := cs :: st.visited } := by
            intro w hw
            rcases List.mem_cons.mp hw with hweq | hwm
            · rw [hweq]
              exact hcs_dist
            · exact hN w hwm
          refine dijkstra_loop_found g ec s e wf hr fuel _ ?_ ?_ ?_ ?_ ?_ ?_ ?_ ?_
          · refine dijkstra_relax_K g ec cs cl cd _ _ ?_
            intro v hv
            rcases hK v hv with ⟨en, hen, he⟩ | h
            · by_cases hem : en = (cd, cs, cl)
              · rw [hem] at he
                exact Or.inr (he ▸ List.mem_cons_self cs st.visited)
              · refine Or.inl ⟨en, ?_, he⟩
                show en ∈ rest
                rw [hrest]
                exact (List.mem_erase_of_ne hem).mpr hen
            · exact Or.inr (List.mem_cons_of_mem cs h)
          · intro v hv n hn
            rw [dijkstra_relax_visited] at hv
            rcases List.mem_cons.mp hv with hveq | hvm
            · rw [hveq] at hn
              exact dijkstra_relax_finite g ec cs cl cd _ _ hN1 n hn
            · exact dijkstra_relax_dist_mono g ec cs cl cd _ _ n (hL v hvm n hn)
          · exact dijkstra_relax_N g ec cs cl cd _ _ hN1
          · refine dijkstra_relax_Q g ec cs cl cd _ _ ?_
            intro en hen
            exact hQ en (hrest_sub en hen)
          · exact dijkstra_relax_dist_mono g ec cs cl cd _ _ s hS
          · rw [dijkstra_relax_visited]
            intro hmem2
            rcases List.mem_cons.mp hmem2 with heq2 | hm2
            · exact hneq heq2.symm
            · exact hM hm2
          · refine dijkstra_relax_pred g ec cs cl cd (· ∈ g.nodes) _ _ ?_ ?_
            · intro en hen
              exact hW en (hrest_sub en hen)
            · intro n hn
              exact wf.2 cs hcs_node n hn
          · have h1 := dijkstra_relax_queue_len g ec cs cl cd (get_neighbors g cs)
              { st with priority_queue := rest, visited := cs :: st.visited }
            have h2 := dijkstra_relax_visited g ec cs cl cd (get_neighbors g cs)
              { st with priority_queue := rest, visited := cs :: st.visited }
            have h3 := unvisited_deg_cons g wf.1 cs hcs_node st.visited hvisited
            unfold dPhi at hfuel ⊢
            rw [h2]
            dsimp only at h1 ⊢
            omega

theorem dijkstra_pathfinding_reachable (g : MetroGraph) (s e : String) (prefer : Bool)
    (wf : GraphWF g) (hs : s ∈ g.nodes) (he : e ∈ g.nodes) (hr : Reachable g s e) :
    ∃ pc, dijkstra_pathfinding g s e prefer = some pc := by
  unfold dijkstra_pathfinding
  split
  · next hor =>
    rcases hor with h | h
    · exact absurd hs h
    · exact absurd he h
  · split
    · exact ⟨_, rfl⟩
    · obtain ⟨p, c, hpc⟩ :=
        dijkstra_loop_found g (dijkstra_edge_cost prefer) s e wf hr
          (degree_sum g + 2) (dijkstra_init s)
          (by
            intro v hv
            left
            refine ⟨((0 : ℚ), s, (none : Option String)), List.mem_singleton_self _, ?_⟩
            dsimp only [dijkstra_init] at hv
            by_cases hvs : v = s
            · exact hvs.symm
            · rw [if_neg hvs] at hv
              exact absurd rfl hv)
          (fun v hv => absurd hv (List.not_mem_nil v))
          (fun v hv => absurd hv (List.not_mem_nil v))
          (by
            intro en hen
            rw [List.mem_singleton.mp hen]
            dsimp only [dijkstra_init]
            simp)
          (by
            dsimp only [dijkstra_init]
            simp)
          (List.not_mem_nil e)
          (by
            intro en hen
            rw [List.mem_singleton.mp hen]
            exact hs)
          (by
            have hU := unvisited_deg_nil g
            unfold dPhi
            dsimp only [dijkstra_init]
            simp only [List.length_cons, List.length_nil]
            omega)
      rw [hpc]
      exact ⟨(p, c), rfl⟩

/-! ## C4: A* loop, mirrored invariants -/

theorem pop_min_a_spec (q : List AEntry) (m : AEntry) (rest : List AEntry)
    (h : pop_min_a q = some (m, rest)) : m ∈ q ∧ rest = q.erase m := by
  match q, h with
  | x :: xs, h =>
    rw [pop_min_a] at h
    injection h with h
    have h1 : m = xs.foldl (fun acc y => if a_entry_lt y acc then y else acc) x := by
      have := congrArg Prod.fst h
      simpa using this.symm
    have h2 : rest = (x :: xs).erase m := by
      have := congrArg Prod.snd h
      simp at this
      rw [← this, h1]
    refine ⟨?_, h2⟩
    rw [h1]
    exact foldl_pick_mem _ xs x

theorem pop_min_a_none (q : List AEntry) (h : pop_min_a q = none) : q = [] := by
  cases q with
  | nil => rfl
  | cons x xs => simp [pop_min_a] at h

theorem a_star_relax_closed (g : MetroGraph) (hf : String → String → ℚ)
    (e : String) (prefer : Bool) (cs : String) (cl : Option String) :
    ∀ (ns : List String) (st : AStarState),
      (a_star_relax g hf e prefer cs cl ns st).closed_set = st.closed_set
  | [], _ => rfl
  | n :: ns, st => by
    rw [a_star_relax]
    split
    · exact a_star_relax_closed g hf e prefer cs cl ns st
    · simp only []
      split
      · exact a_star_relax_closed g hf e prefer cs cl ns _
      · exact a_star_relax_closed g hf e prefer cs cl ns st

theorem a_star_relax_pred (g : MetroGraph) (hf : String → String → ℚ)
    (e : String) (prefer : Bool) (cs : String) (cl : Option String)
    (P : String → Prop) :
    ∀ (ns : List String) (st : AStarState),
      (∀ en ∈ st.open_set, P en.2.2.1) → (∀ n ∈ ns, P n) →
      ∀ en ∈ (a_star_relax g hf e prefer cs cl ns st).open_set, P en.2.2.1
  | [], _, hq, _ => hq
  | n :: ns, st, hq, hn => by
    rw [a_star_relax]
    split
    · exact a_star_relax_pred g hf e prefer cs cl P ns st hq
        (fun x hx => hn x (List.mem_cons_of_mem _ hx))
    · simp only []
      split
      · refine a_star_relax_pred g hf e prefer cs cl P ns _ ?_
          (fun x hx => hn x (List.mem_cons_of_mem _ hx))
        intro en hen
        rw [List.mem_append, List.mem_singleton] at hen
        rcases hen with hen | hen
        · exact hq en hen
        · rw [hen]
          exact hn n (List.mem_cons_self n ns)
      · exact a_star_relax_pred g hf e prefer cs cl P ns st hq
          (fun x hx => hn x (List.mem_cons_of_mem _ hx))

theorem a_star_relax_g_mono (g : MetroGraph) (hf : String → String → ℚ)
    (e : String) (prefer : Bool) (cs : String) (cl : Option String) :
    ∀ (ns : List String) (st : AStarState) (v : String),
      st.g_score v ≠ none →
      (a_star_relax g hf e prefer cs cl ns st).g_score v ≠ none
  | [], _, _, hv => hv
  | n :: ns, st, v, hv => by
    rw [a_star_relax]
    split
    · exact a_star_relax_g_mono g hf e prefer cs cl ns st v hv
    · simp only []
      split
      · refine a_star_relax_g_mono g hf e prefer cs cl ns _ v ?_
        dsimp only
        by_cases hvn : v = n
        · simp [hvn]
        · simpa [hvn] using hv
      · exact a_star_relax_g_mono g hf e prefer cs cl ns st v hv

theorem a_star_relax_K (g : MetroGraph) (hf : String → String → ℚ)
    (e : String) (prefer : Bool) (cs : String) (cl : Option String) :
    ∀ (ns : List String) (st : AStarState),
      AInvK st → AInvK (a_star_relax g hf e prefer cs cl ns st)
  | [], _, hK => hK
  | n :: ns, st, hK => by
    rw [a_star_relax]
    split
    · exact a_star_relax_K g hf e prefer cs cl ns st hK
    · simp only []
      split
      · refine a_star_relax_K g hf e prefer cs cl ns _ ?_
        intro v hv
        dsimp only at hv ⊢
        by_cases hvn : v = n
        · refine Or.inl ⟨_, List.mem_append_right _ (List.mem_singleton_self _), ?_⟩
          rw [hvn]
        · rw [if_neg hvn] at hv
          rcases hK v hv with ⟨en, hen, he⟩ | hvis
          · exact Or.inl ⟨en, List.mem_append_left _ hen, he⟩
          · exact Or.inr hvis
      · exact a_star_relax_K g hf e prefer cs cl ns st hK

theorem a_star_relax_Q (g : MetroGraph) (hf : String → String → ℚ)
    (e : String) (prefer : Bool) (cs : String) (cl : Option String) :
    ∀ (ns : List String) (st : AStarState),
      AInvQ st → AInvQ (a_star_relax g hf e prefer cs cl ns st)
  | [], _, hQ => hQ
  | n :: ns, st, hQ => by
    rw [a_star_relax]
    split
    · exact a_star_relax_Q g hf e prefer cs cl ns st hQ
    · simp only []
      split
      · refine a_star_relax_Q g hf e prefer cs cl ns _ ?_
        intro en hen
        dsimp only at hen ⊢
        by_cases hvn : en.2.2.1 = n
        · simp [hvn]
        · rw [List.mem_append, List.mem_singleton] at hen
          rcases hen with hen | hen
          · simpa [hvn] using hQ en hen
          · rw [hen] at hvn
            exact absurd rfl hvn
      · exact a_star_relax_Q g hf e prefer cs cl ns st hQ

theorem a_star_relax_N (g : MetroGraph) (hf : String → String → ℚ)
    (e : String) (prefer : Bool) (cs : String) (cl : Option String)
    (ns : List String) (st : AStarState) (hN : AInvN st) :
    AInvN (a_star_relax g hf e prefer cs cl ns st) := by
  intro v hv
  rw [a_star_relax_closed] at hv
  exact a_star_relax_g_mono g hf e prefer cs cl ns st v (hN v hv)

theorem a_star_relax_finite (g : MetroGraph) (hf : String → String → ℚ)
    (e : String) (prefer : Bool) (cs : String) (cl : Option String) :
    ∀ (ns : List String) (st : AStarState), AInvN st →
      ∀ n ∈ ns, (a_star_relax g hf e prefer cs cl ns st).g_score n ≠ none
  | [], _, _, n, hn => absurd hn (List.not_mem_nil n)
  | n0 :: ns, st, hN, n, hn => by
    rw [a_star_relax]
    split
    · next hvis =>
      rcases List.mem_cons.mp hn with heq | hmem
      · rw [heq]
        exact a_star_relax_g_mono g hf e prefer cs cl ns st n0 (hN n0 hvis)
      · exact a_star_relax_finite g hf e prefer cs cl ns st hN n hmem
    · simp only []
      split
      · rcases List.mem_cons.mp hn with heq | hmem
        · rw [heq]
          refine a_star_relax_g_mono g hf e prefer cs cl ns _ n0 ?_
          dsimp only
          simp
        · refine a_star_relax_finite g hf e prefer cs cl ns _ ?_ n hmem
          intro v hv
          dsimp only at hv ⊢
          by_cases hvn : v = n0
          · simp [hvn]
          · simpa [hvn] using hN v hv
      · next himp =>
        rcases List.mem_cons.mp hn with heq | hmem
        · rw [heq]
          refine a_star_relax_g_mono g hf e prefer cs cl ns st n0 ?_
          intro hnone
          rw [hnone] at himp
          exact himp rfl
        · exact a_star_relax_finite g hf e prefer cs cl ns st hN n hmem

theorem a_star_relax_queue_len (g : MetroGraph) (hf : String → String → ℚ)
    (e : String) (prefer : Bool) (cs : String) (cl : Option String) :
    ∀ (ns : List String) (st : AStarState),
      (a_star_relax g hf e prefer cs cl ns st).open_set.length ≤
        st.open_set.length + ns.length
  | [], st => Nat.le_refl _
  | n :: ns, st => by
    rw [a_star_relax]
    split
    · have := a_star_relax_queue_len g hf e prefer cs cl ns st
      simp only [List.length_cons]
      omega
    · simp only []
      split
      · refine le_trans (a_star_relax_queue_len g hf e prefer cs cl ns _) ?_
        dsimp only
        simp only [List.length_append, List.length_cons, List.length_singleton,
          List.length_nil]
        omega
      · have := a_star_relax_queue_len g hf e prefer cs cl ns st
        simp only [List.length_cons]
        omega

theorem a_star_loop_unreachable (g : MetroGraph) (hf : String → String → ℚ)
    (s e : String) (prefer : Bool) (hne : ¬ Reachable g s e) :
    ∀ (fuel : Nat) (st : AStarState),
      (∀ en ∈ st.open_set, Reachable g s en.2.2.1) →
      (a_star_loop g hf s e prefer fuel st).getD none = none
  | 0, _, _ => rfl
  | fuel + 1, st, hq => by
    rw [a_star_loop]
    split
    · rfl
    · next f1 g1 cs cl rest hpop =>
      obtain ⟨hm, hrest⟩ := pop_min_a_spec _ _ _ hpop
      have hq2 : ∀ en ∈ rest, Reachable g s en.2.2.1 := by
        intro en hen
        rw [hrest] at hen
        exact hq en (List.mem_of_mem_erase hen)
      split
      · exact a_star_loop_unreachable g hf s e prefer hne fuel _ hq2
      · simp only []
        split
        · next heq =>
          exact absurd (heq ▸ hq (f1, g1, cs, cl) hm) hne
        · exact a_star_loop_unreachable g hf s e prefer hne fuel _
            (a_star_relax_pred g hf e prefer cs cl (Reachable g s) _ _ hq2
              (fun n hn => Relation.ReflTransGen.tail (hq (f1, g1, cs, cl) hm) hn))

theorem a_star_pathfinding_unreachable (g : MetroGraph) (hf : String → String → ℚ)
    (s e : String) (prefer : Bool) (hne : ¬ Reachable g s e) :
    a_star_pathfinding g hf s e prefer = none := by
  unfold a_star_pathfinding
  split
  · rfl
  · split
    · next heq =>
      exact absurd (heq ▸ Relation.ReflTransGen.refl) hne
    · refine a_star_loop_unreachable g hf s e prefer hne _ _ ?_
      intro en hen
      have h1 : en = (hf s e, (0 : ℚ), s, (none : Option String)) :=
        List.mem_singleton.mp hen
      rw [h1]
      exact Relation.ReflTransGen.refl

theorem a_star_loop_found (g : MetroGraph) (hf : String → String → ℚ)
    (s e : String) (prefer : Bool) (wf : GraphWF g) (hr : Reachable g s e) :
    ∀ (fuel : Nat) (st : AStarState),
      AInvK st → AInvL g st → AInvN st → AInvQ st →
      st.g_score s ≠ none → e ∉ st.closed_set →
      (∀ en ∈ st.open_set, en.2.2.1 ∈ g.nodes) →
      aPhi g st < fuel →
      ∃ p c, a_star_loop g hf s e prefer fuel st = some (some (p, c))
  | 0, _, _, _, _, _, _, _, _, hfuel => absurd hfuel (Nat.not_lt_zero _)
  | fuel + 1, st, hK, hL, hN, hQ, hS, hM, hW, hfuel => by
    rw [a_star_loop]
    split
    · next hpop =>
      have hq0 : st.open_set = [] := pop_min_a_none _ hpop
      have hvis : ∀ v, Reachable g s v → v ∈ st.closed_set := by
        intro v hv
        induction hv with
        | refl =>
          rcases hK s hS with ⟨en, hen, -⟩ | h
          · rw [hq0] at hen
            exact absurd hen (List.not_mem_nil en)
          · exact h
        | @tail b c2 hab hbc ih =>
          have hfin : st.g_score c2 ≠ none := hL b ih c2 hbc
          rcases hK c2 hfin with ⟨en, hen, -⟩ | h
          · rw [hq0] at hen
            exact absurd hen (List.not_mem_nil en)
          · exact h
      exact absurd (hvis e hr) hM
    · next f1 g1 cs cl rest hpop =>
      obtain ⟨hm, hrest⟩ := pop_min_a_spec _ _ _ hpop
      have hcs_dist : st.g_score cs ≠ none := hQ (f1, g1, cs, cl) hm
      have hcs_node : cs ∈ g.nodes := hW (f1, g1, cs, cl) hm
      have hrl : rest.length < st.open_set.length := by
        rw [hrest, List.length_erase_of_mem hm]
        have hne0 : st.open_set.length ≠ 0 := by
          intro h0
          rw [List.length_eq_zero] at h0
          rw [h0] at hm
          exact absurd hm (List.not_mem_nil _)
        omega
      have hrest_sub : ∀ en ∈ rest, en ∈ st.open_set := by
        intro en hen
        rw [hrest] at hen
        exact List.mem_of_mem_erase hen
      split
      · next hvisited =>
        refine a_star_loop_found g hf s e prefer wf hr fuel _ ?_ hL hN ?_ hS hM ?_ ?_
        · intro v hv
          rcases hK v hv with ⟨en, hen, he⟩ | h
          · by_cases hem : en = (f1, g1, cs, cl)
            · rw [hem] at he
              exact Or.inr (he ▸ hvisited)
            · refine Or.inl ⟨en, ?_, he⟩
              show en ∈ rest
              rw [hrest]
              exact (List.mem_erase_of_ne hem).mpr hen
          · exact Or.inr h
        · intro en hen
          exact hQ en (hrest_sub en hen)
        · intro en hen
          exact hW en (hrest_sub en hen)
        · unfold aPhi at hfuel ⊢
          dsimp only
          omega
      · next hvisited =>
        simp only []
        split
        · exact ⟨_, _, rfl⟩
        · next hneq =>
          have hN1 : AInvN
              { st with open_set := rest, closed_set := cs :: st.closed_set } := by
            intro w hw
            rcases List.mem_cons.mp hw with hweq | hwm
            · rw [hweq]
              exact hcs_dist
            · exact hN w hwm
          refine a_star_loop_found g hf s e prefer wf hr fuel _ ?_ ?_ ?_ ?_ ?_ ?_ ?_ ?_
          · refine a_star_relax_K g hf e prefer cs cl _ _ ?_
            intro v hv
            rcases hK v hv with ⟨en, hen, he⟩ | h
            · by_cases hem : en = (f1, g1, cs, cl)
              · rw [hem] at he
                exact Or.inr (he ▸ List.mem_cons_self cs st.closed_set)
              · refine Or.inl ⟨en, ?_, he⟩
                show en ∈ rest
                rw [hrest]
                exact (List.mem_erase_of_ne hem).mpr hen
            · exact Or.inr (List.mem_cons_of_mem cs h)
          · intro v hv n hn
            rw [a_star_relax_closed] at hv
            rcases List.mem_cons.mp hv with hveq | hvm
            · rw [hveq] at hn
              exact a_star_relax_finite g hf e prefer cs cl _ _ hN1 n hn
            · exact a_star_relax_g_mono g hf e prefer cs cl _ _ n (hL v hvm n hn)
          · exact a_star_relax_N g hf e prefer cs cl _ _ hN1
          · refine a_star_relax_Q g hf e prefer cs cl _ _ ?_
            intro en hen
            exact hQ en (hrest_sub en hen)
          · exact a_star_relax_g_mono g hf e prefer cs cl _ _ s hS
          · rw [a_star_relax_closed]
            intro hmem2
            rcases List.mem_cons.mp hmem2 with heq2 | hm2
            · exact hneq heq2.symm
            · exact hM hm2
          · refine a_star_relax_pred g hf e prefer cs cl (· ∈ g.nodes) _ _ ?_ ?_
            · intro en hen
              exact hW en (hrest_sub en hen)
            · intro n hn
              exact wf.2 cs hcs_node n hn
          · have h1 := a_star_relax_queue_len g hf e prefer cs cl (get_neighbors g cs)
              { st with open_set := rest, closed_set := cs :: st.closed_set }
            have h2 := a_star_relax_closed g hf e prefer cs cl (get_neighbors g cs)
              { st with open_set := rest, closed_set := cs :: st.closed_set }
            have h3 := unvisited_deg_cons g wf.1 cs hcs_node st.closed_set hvisited
            unfold aPhi at hfuel ⊢
            rw [h2]
            dsimp only at h1 ⊢
            omega

theorem a_star_pathfinding_reachable (g : MetroGraph) (hf : String → String → ℚ)
    (s e : String) (prefer : Bool) (wf : GraphWF g) (hs : s ∈ g.nodes)
    (he : e ∈ g.nodes) (hr : Reachable g s e) :
    ∃ pc, a_star_pathfinding g hf s e prefer = some pc := by
  unfold a_star_pathfinding
  split
  · next hor =>
    rcases hor with h | h
    · exact absurd hs h
    · exact absurd he h
  · split
    · exact ⟨_, rfl⟩
    · obtain ⟨p, c, hpc⟩ :=
        a_star_loop_found g hf s e prefer wf hr
          (degree_sum g + 2) (a_star_init hf s e)
          (by
            intro v hv
            left
            refine ⟨(hf s e, (0 : ℚ), s, (none : Option String)),
              List.mem_singleton_self _, ?_⟩
            dsimp only [a_star_init] at hv
            by_cases hvs : v = s
            · exact hvs.symm
            · rw [if_neg hvs] at hv
              exact absurd rfl hv)
          (fun v hv => absurd hv (List.not_mem_nil v))
          (fun v hv => absurd hv (List.not_mem_nil v))
          (by
            intro en hen
            rw [List.mem_singleton.mp hen]
            dsimp only [a_star_init]
            simp)
          (by
            dsimp only [a_star_init]
            simp)
          (List.not_mem_nil e)
          (by
            intro en hen
            rw [List.mem_singleton.mp hen]
            exact hs)
          (by
            have hU := unvisited_deg_nil g
            unfold aPhi
            dsimp only [a_star_init]
            simp only [List.length_cons, List.length_nil]
            omega)
      rw [hpc]
      exact ⟨(p, c), rfl⟩

/-! ## C4: verdict -/

theorem c4_reach_closed :
    ∀ v, Reachable c4_graph "A" v → v ∈ (["A", "B", "C"] : List String) := by
  have hstep : ∀ b ∈ (["A", "B", "C"] : List String),
      ∀ c2 ∈ get_neighbors c4_graph b, c2 ∈ (["A", "B", "C"] : List String) := by
    decide
  intro v hv
  induction hv with
  | refl => decide
  | @tail b c2 hab hbc ih => exact hstep b ih c2 hbc

theorem c4_unreachable_D : ¬ Reachable c4_graph "A" "D" :=
  fun h => absurd (c4_reach_closed "D" h) (by decide)

theorem c4_reach_C : Reachable c4_graph "A" "C" :=
  Relation.ReflTransGen.head
    (show ("B" : String) ∈ get_neighbors c4_graph "A" by decide)
    (Relation.ReflTransGen.head
      (show ("C" : String) ∈ get_neighbors c4_graph "B" by decide)
      Relation.ReflTransGen.refl)

/-- C4 (corrected).  The no-path half of the claim holds: for a pair that is
not connected, `a_star_pathfinding` and `dijkstra_pathfinding` both return
`None`; and for a connected pair of stations of a well-formed graph both
return a path.  The equal-cost half is false: the two searches apply
different line-change penalties (`+0.2` versus `+0.15`), so on a connected
pair whose best route changes line the returned costs differ (see the
counterexample). -/
theorem C4_search_agreement_amended (g : MetroGraph) (hf : String → String → ℚ)
    (s e : String) (prefer : Bool) :
    (¬ Reachable g s e →
      a_star_pathfinding g hf s e prefer = none ∧
      dijkstra_pathfinding g s e prefer = none) ∧
    (GraphWF g → s ∈ g.nodes → e ∈ g.nodes → Reachable g s e →
      (∃ pc, a_star_pathfinding g hf s e prefer = some pc) ∧
      ∃ pc, dijkstra_pathfinding g s e prefer = some pc) := by
  constructor
  · intro hne
    exact ⟨a_star_pathfinding_unreachable g hf s e prefer hne,
      dijkstra_pathfinding_unreachable g s e prefer hne⟩
  · intro wf hs he hr
    exact ⟨a_star_pathfinding_reachable g hf s e prefer wf hs he hr,
      dijkstra_pathfinding_reachable g s e prefer wf hs he hr⟩

/-- C4 counterexample.  On the connected pair `("A", "C")` of `c4_graph`
(one line change, `prefer_line_continuity` true, zero heuristic) A* returns
cost `2.2` while Dijkstra returns cost `2.15`: connected pairs do not get
paths of equal total cost. -/
theorem C4_cex :
    a_star_pathfinding c4_graph (fun _ _ => 0) "A" "C" true =
      some (["A", "B", "C"], mkRat 11 5) ∧
    dijkstra_pathfinding c4_graph "A" "C" true =
      some (["A", "B", "C"], mkRat 43 20) ∧
    mkRat 11 5 ≠ mkRat 43 20 := by
  decide

/-- C4 witness: the amended theorem applied to `c4_graph`, at the
disconnected pair `("A", "D")` and at the connected pair `("A", "C")`. -/
theorem C4_witness :
    a_star_pathfinding c4_graph (fun _ _ => 0) "A" "D" true = none ∧
    dijkstra_pathfinding c4_graph "A" "D" true = none ∧
    (∃ pc, a_star_pathfinding c4_graph (fun _ _ => 0) "A" "C" true = some pc) ∧
    (∃ pc, dijkstra_pathfinding c4_graph "A" "C" true = some pc) := by
  obtain ⟨hu, -⟩ := C4_search_agreement_amended c4_graph (fun _ _ => 0) "A" "D" true
  obtain ⟨-, hc⟩ := C4_search_agreement_amended c4_graph (fun _ _ => 0) "A" "C" true
  obtain ⟨h1, h2⟩ := hu c4_unreachable_D
  obtain ⟨h3, h4⟩ := hc ⟨by decide, by decide⟩ (by decide) (by decide) c4_reach_C
  exact ⟨h1, h2, h3, h4⟩

/-! ## C6: alternative-path properties -/

theorem paths_are_equivalent_symm (p1 p2 : List String × ℚ) (t : ℚ) :
    paths_are_equivalent (some p1) (some p2) t =
      paths_are_equivalent (some p2) (some p1) t := by
  simp only [paths_are_equivalent]
  rw [show qabs (qsub p1.2 p2.2) = qabs (qsub p2.2 p1.2) by
    rw [qabs_eq, qabs_eq, qsub_eq, qsub_eq, abs_sub_comm]]
  rw [show ((p1.1.length : ℤ) - (p2.1.length : ℤ)).natAbs =
      ((p2.1.length : ℤ) - (p1.1.length : ℤ)).natAbs by
    rw [← Int.natAbs_neg, neg_sub]]
  rw [Finset.inter_comm, Finset.union_comm]

/-- C6 (confirmed).  `find_multiple_paths` returns at most `max_paths`
paths, no two of which are `_paths_are_equivalent` at the `0.1` threshold,
and the returned list is sorted by ascending cost. -/
theorem C6_find_multiple_paths (g : MetroGraph) (hf : String → String → ℚ)
    (s e : String) (max_paths : Nat) :
    (find_multiple_paths g hf s e max_paths).length ≤ max_paths ∧
    (find_multiple_paths g hf s e max_paths).Pairwise
      (fun p1 p2 => paths_are_equivalent (some p1) (some p2) (mkRat 1 10) = false) ∧
    (find_multiple_paths g hf s e max_paths).Pairwise
      (fun p1 p2 => p1.2 ≤ p2.2) := by
  have hsym : ∀ {p1 p2 : List String × ℚ},
      paths_are_equivalent (some p1) (some p2) (mkRat 1 10) = false →
      paths_are_equivalent (some p2) (some p1) (mkRat 1 10) = false :=
    fun {p1 p2} h => (paths_are_equivalent_symm p2 p1 (mkRat 1 10)).trans h
  have main : ∀ l : List (List String × ℚ),
      l.Pairwise
        (fun p1 p2 => paths_are_equivalent (some p1) (some p2) (mkRat 1 10) = false) →
      ((sort_paths_by_distance l).take max_paths).length ≤ max_paths ∧
      ((sort_paths_by_distance l).take max_paths).Pairwise
        (fun p1 p2 => paths_are_equivalent (some p1) (some p2) (mkRat 1 10) = false) ∧
      ((sort_paths_by_distance l).take max_paths).Pairwise
        (fun p1 p2 => p1.2 ≤ p2.2) := by
    intro l hp
    refine ⟨List.length_take_le _ _, ?_, ?_⟩
    · refine List.Pairwise.sublist (List.take_sublist _ _) ?_
      unfold sort_paths_by_distance
      exact (List.Perm.pairwise_iff (fun h => hsym h)
        (List.mergeSort_perm l _)).mpr hp
    · refine List.Pairwise.sublist (List.take_sublist _ _) ?_
      have hs := @List.sorted_mergeSort (List String × ℚ)
        (fun a b => decide (a.2 ≤ b.2))
        (fun a b c hab hbc => by
          rw [decide_eq_true_eq] at hab hbc ⊢
          exact le_trans hab hbc)
        (fun a b => by
          rw [Bool.or_eq_true, decide_eq_true_eq, decide_eq_true_eq]
          exact le_total a.2 b.2)
        l
      unfold sort_paths_by_distance
      refine List.Pairwise.imp ?_ hs
      intro a b hab
      exact of_decide_eq_true hab
  have append_one : ∀ (l : List (List String × ℚ)) (r : List String × ℚ),
      l.Pairwise
        (fun p1 p2 => paths_are_equivalent (some p1) (some p2) (mkRat 1 10) = false) →
      (∀ x ∈ l, paths_are_equivalent (some r) (some x) (mkRat 1 10) = false) →
      (l ++ [r]).Pairwise
        (fun p1 p2 => paths_are_equivalent (some p1) (some p2) (mkRat 1 10) = false) := by
    intro l r hl hall
    rw [List.pairwise_append]
    refine ⟨hl, List.pairwise_singleton _ _, ?_⟩
    intro a ha b hb
    rw [List.mem_singleton] at hb
    rw [hb]
    exact hsym (hall a ha)
  have stage3 : ∀ l : List (List String × ℚ),
      l.Pairwise
        (fun p1 p2 => paths_are_equivalent (some p1) (some p2) (mkRat 1 10) = false) →
      (if l.length < max_paths then
        match find_path_with_modified_costs g s e (mkRat 5 100) with
        | some relaxed_path =>
          if l.any (fun p =>
              paths_are_equivalent (some relaxed_path) (some p) (mkRat 1 10)) then l
          else l ++ [relaxed_path]
        | none => l
      else l).Pairwise
        (fun p1 p2 => paths_are_equivalent (some p1) (some p2) (mkRat 1 10) = false) := by
    intro l hl
    split
    · split
      · next r hr =>
        split
        · exact hl
        · next hany =>
          rw [Bool.not_eq_true, List.any_eq_false] at hany
          refine append_one l r hl ?_
          intro x hx
          have := hany x hx
          rwa [Bool.not_eq_true] at this
      · exact hl
    · exact hl
  unfold find_multiple_paths
  simp only []
  apply main
  rcases find_optimal_path g hf s e true with - | p0
  · refine stage3 _ ?_
    split
    · split
      · split
        · exact List.Pairwise.nil
        · exact List.Pairwise.cons
            (fun b hb => absurd hb (List.not_mem_nil b)) List.Pairwise.nil
      · exact List.Pairwise.nil
    · exact List.Pairwise.nil
  · refine stage3 _ ?_
    split
    · split
      · split
        · exact List.pairwise_singleton _ _
        · next a hguard =>
          rw [Bool.not_eq_true] at hguard
          refine List.pairwise_append.mpr
            ⟨List.pairwise_singleton _ _, List.pairwise_singleton _ _, ?_⟩
          intro x hx b hb
          rw [List.mem_singleton] at hb
          have hx2 : x = p0 := List.mem_singleton.mp hx
          rw [hb, hx2]
          exact hguard
      · exact List.pairwise_singleton _ _
    · exact List.pairwise_singleton _ _

end Hurry
